import Mathlib

/-!
# Verification of the `semv` semantic-versioning library

A shallow embedding of the `semv` Go package: the `Version` value type, the
character-by-character permissive/strict parsers (`parse_version.go`), the
formatter (`version.go`: `Format` / `String`), the version comparator
(modelled from the specification, since `Version.Less` / `Version.Equals`
are referenced by the sources but their defining file is not part of the
source tree), the `Range` model (`range.go`) and the `VersionList`
collection queries (`Sorted`, `SortedDesc`, `GreatestSatisfying`).

Go `int` fields are modelled as `Int` (overflow at 2^63 is immaterial to
every statement proved here, all of which involve small values); Go strings
are modelled as `String` / `List Char`, and byte positions of characters are
tracked by UTF-8 size so that reported error offsets agree with Go's
byte-indexed `for i, c = range s` loop.
-/

namespace Semv

/-! ## Comparator framework

`LawfulCmp cmp` packages the three facts needed to show that the boolean
order derived from a three-way comparator is a strict total order:
antisymmetry of the result under swapping the arguments, transitivity of
`.lt`, and that `.eq` results are congruences. -/

/-- A three-way comparator whose derived strict order is a strict total order. -/
structure LawfulCmp {α : Type} (cmp : α → α → Ordering) : Prop where
  symm : ∀ a b, cmp a b = (cmp b a).swap
  lt_trans : ∀ a b c, cmp a b = .lt → cmp b c = .lt → cmp a c = .lt
  eq_congr : ∀ a b c, cmp a b = .eq → cmp a c = cmp b c

theorem LawfulCmp.eq_symm {α : Type} {cmp : α → α → Ordering} (h : LawfulCmp cmp)
    {a b : α} (hab : cmp a b = .eq) : cmp b a = .eq := by
  cases hbo : cmp b a with
  | eq => rfl
  | lt => rw [h.symm a b, hbo] at hab; exact absurd hab (by decide)
  | gt => rw [h.symm a b, hbo] at hab; exact absurd hab (by decide)

theorem LawfulCmp.eq_congr_right {α : Type} {cmp : α → α → Ordering} (h : LawfulCmp cmp)
    {a b : α} (c : α) (hab : cmp a b = .eq) : cmp c a = cmp c b := by
  rw [h.symm c a, h.symm c b, h.eq_congr a b c hab]

theorem LawfulCmp.gt_iff {α : Type} {cmp : α → α → Ordering} (h : LawfulCmp cmp)
    {a b : α} : cmp a b = .gt ↔ cmp b a = .lt := by
  rw [h.symm a b]
  cases cmp b a <;> simp [Ordering.swap]

theorem LawfulCmp.lt_asymm {α : Type} {cmp : α → α → Ordering} (h : LawfulCmp cmp)
    {a b : α} (hab : cmp a b = .lt) : cmp b a ≠ .lt := by
  intro hba
  have hs := h.symm a b
  rw [hab, hba] at hs
  simp [Ordering.swap] at hs

/-- The comparator of a linear order, written out with `if` so that it
computes by `decide`. -/
def lcmp {α : Type} [LinearOrder α] (a b : α) : Ordering :=
  if a < b then .lt else if a = b then .eq else .gt

theorem lcmp_eq_lt {α : Type} [LinearOrder α] {a b : α} : lcmp a b = .lt ↔ a < b := by
  unfold lcmp
  split_ifs with h1 h2 <;> simp_all

theorem lcmp_eq_eq {α : Type} [LinearOrder α] {a b : α} : lcmp a b = .eq ↔ a = b := by
  unfold lcmp
  split_ifs with h1 h2 <;> simp_all
  exact ne_of_lt h1

theorem lcmp_eq_gt {α : Type} [LinearOrder α] {a b : α} : lcmp a b = .gt ↔ b < a := by
  constructor
  · intro hg
    rcases lt_trichotomy a b with h | h | h
    · rw [lcmp_eq_lt.mpr h] at hg; exact absurd hg (by decide)
    · rw [lcmp_eq_eq.mpr h] at hg; exact absurd hg (by decide)
    · exact h
  · intro h
    unfold lcmp
    rw [if_neg (not_lt.mpr h.le), if_neg (ne_of_gt h)]

theorem lawful_lcmp {α : Type} [LinearOrder α] : LawfulCmp (lcmp (α := α)) where
  symm a b := by
    rcases lt_trichotomy a b with h | h | h
    · rw [lcmp_eq_lt.mpr h, (by rw [lcmp_eq_gt]; exact h : lcmp b a = .gt)]; rfl
    · subst h; rw [lcmp_eq_eq.mpr rfl]; rfl
    · rw [(by rw [lcmp_eq_gt]; exact h : lcmp a b = .gt), lcmp_eq_lt.mpr h]; rfl
  lt_trans a b c hab hbc :=
    lcmp_eq_lt.mpr (lt_trans (lcmp_eq_lt.mp hab) (lcmp_eq_lt.mp hbc))
  eq_congr a b c hab := by rw [lcmp_eq_eq.mp hab]

/-- Composition of two comparators on the same type, first deciding by `f`
and falling through to `g` on ties. -/
theorem lawful_then {α : Type} {f g : α → α → Ordering}
    (hf : LawfulCmp f) (hg : LawfulCmp g) :
    LawfulCmp (fun a b => (f a b).then (g a b)) where
  symm a b := by
    simp only [hf.symm a b, hg.symm a b, Ordering.swap_then]
  lt_trans a b c hab hbc := by
    simp only [Ordering.then_eq_lt] at hab hbc ⊢
    rcases hab with hab | ⟨hab, hab2⟩ <;> rcases hbc with hbc | ⟨hbc, hbc2⟩
    · exact Or.inl (hf.lt_trans a b c hab hbc)
    · exact Or.inl (by rw [hf.eq_congr_right a (hf.eq_symm hbc)]; exact hab)
    · exact Or.inl (by rw [hf.eq_congr a b c hab]; exact hbc)
    · exact Or.inr ⟨by rw [hf.eq_congr a b c hab]; exact hbc,
        hg.lt_trans a b c hab2 hbc2⟩
  eq_congr a b c hab := by
    simp only [Ordering.then_eq_eq] at hab
    rw [hf.eq_congr a b c hab.1, hg.eq_congr a b c hab.2]

/-- Pulling a comparator back along a projection. -/
theorem lawful_comap {α β : Type} {f : β → β → Ordering} (hf : LawfulCmp f)
    (π : α → β) : LawfulCmp (fun a b => f (π a) (π b)) where
  symm a b := hf.symm (π a) (π b)
  lt_trans a b c := hf.lt_trans (π a) (π b) (π c)
  eq_congr a b c := hf.eq_congr (π a) (π b) (π c)

/-- Lexicographic comparison of lists, a strict prefix comparing less. -/
def listCmp {α : Type} (f : α → α → Ordering) : List α → List α → Ordering
  | [], [] => .eq
  | [], _ :: _ => .lt
  | _ :: _, [] => .gt
  | a :: as, b :: bs => (f a b).then (listCmp f as bs)

theorem lawful_listCmp {α : Type} {f : α → α → Ordering} (hf : LawfulCmp f) :
    LawfulCmp (listCmp f) where
  symm a := by
    induction a with
    | nil => intro b; cases b <;> rfl
    | cons x xs ih =>
      intro b
      cases b with
      | nil => rfl
      | cons y ys =>
        show (f x y).then (listCmp f xs ys) = ((f y x).then (listCmp f ys xs)).swap
        rw [Ordering.swap_then, ← hf.symm x y, ← ih ys]
  lt_trans a := by
    induction a with
    | nil =>
      intro b c hab hbc
      cases b with
      | nil => exact absurd hab (by simp [listCmp])
      | cons y ys =>
        cases c with
        | nil => exact absurd hbc (by simp [listCmp])
        | cons z zs => rfl
    | cons x xs ih =>
      intro b c hab hbc
      cases b with
      | nil => exact absurd hab (by simp [listCmp])
      | cons y ys =>
        cases c with
        | nil => exact absurd hbc (by simp [listCmp])
        | cons z zs =>
          show (f x z).then (listCmp f xs zs) = .lt
          have hab' : (f x y).then (listCmp f xs ys) = .lt := hab
          have hbc' : (f y z).then (listCmp f ys zs) = .lt := hbc
          rw [Ordering.then_eq_lt] at hab' hbc' ⊢
          rcases hab' with h1 | ⟨h1, h1'⟩ <;> rcases hbc' with h2 | ⟨h2, h2'⟩
          · exact Or.inl (hf.lt_trans x y z h1 h2)
          · exact Or.inl (by rw [hf.eq_congr_right x (hf.eq_symm h2)]; exact h1)
          · exact Or.inl (by rw [hf.eq_congr x y z h1]; exact h2)
          · exact Or.inr ⟨by rw [hf.eq_congr x y z h1]; exact h2, ih ys zs h1' h2'⟩
  eq_congr a := by
    induction a with
    | nil =>
      intro b c hab
      cases b with
      | nil => rfl
      | cons y ys => exact absurd hab (by simp [listCmp])
    | cons x xs ih =>
      intro b c hab
      cases b with
      | nil => exact absurd hab (by simp [listCmp])
      | cons y ys =>
        have hab' : (f x y).then (listCmp f xs ys) = .eq := hab
        rw [Ordering.then_eq_eq] at hab'
        cases c with
        | nil => rfl
        | cons z zs =>
          show (f x z).then (listCmp f xs zs) = (f y z).then (listCmp f ys zs)
          rw [hf.eq_congr x y z hab'.1, ih ys zs hab'.2]

/-! ## Data model (`version.go`) -/

/-- The `Version` struct of `version.go`: `Major, Minor, Patch` are Go `int`
fields (modelled as `Int`), `Pre`, `Meta` and `DefaultFormat` are strings. -/
structure Version where
  Major : Int
  Minor : Int
  Patch : Int
  Pre : String
  Meta : String
  DefaultFormat : String
deriving DecidableEq, Repr

/-- `Version.Validate` of `version.go`: major, minor and patch must all be
non-negative; the error value is modelled as a `Bool` flag (`true` = valid). -/
def Version.Validate (v : Version) : Bool :=
  !(v.Major < 0 || v.Minor < 0 || v.Patch < 0)

/-! ## Comparator

The source files of this repository reference `Version.Less` and
`Version.Equals` (in `VersionList.Less`, `Range.SatisfiedBy`, and the tests)
but the file defining them is not among the sources. The definitions below
are modelled from the specification, section 4.3. -/

/-- Membership in the candidate characters of a prerelease identifier that
make it numeric (decimal digits). -/
def isNumericIdent (s : List Char) : Bool :=
  !s.isEmpty && s.all Char.isDigit

/-- Decimal value of a digit string (used for numeric identifiers). -/
def digitsVal (s : List Char) : Nat :=
  s.foldl (fun acc c => 10 * acc + (c.toNat - 48)) 0

/-- Comparison of two characters by code point. -/
def charCmp (a b : Char) : Ordering :=
  lcmp a.toNat b.toNat

/-- Modelled from the spec: comparison of two prerelease identifiers
(section 4.3, step 3) — if both identifiers parse as integers they compare
numerically, a numeric identifier is less than a non-numeric one, and
otherwise they compare as text, character by character. -/
def identCmp (a b : List Char) : Ordering :=
  match isNumericIdent a, isNumericIdent b with
  | true, true => lcmp (digitsVal a) (digitsVal b)
  | true, false => .lt
  | false, true => .gt
  | false, false => listCmp charCmp a b

/-- Splitting a prerelease string into its dot-separated identifiers. -/
def splitOnDot : List Char → List (List Char)
  | [] => [[]]
  | c :: cs =>
    if c = '.' then [] :: splitOnDot cs
    else
      match splitOnDot cs with
      | [] => [[c]]
      | g :: gs => (c :: g) :: gs

/-- Modelled from the spec: comparison of the prerelease fields of two
versions with equal numeric triples (section 4.3, steps 2–3) — an empty
prerelease is greater than a non-empty one; two non-empty prereleases
compare identifier by identifier, a strict prefix comparing less. -/
def preCmp (p q : String) : Ordering :=
  if p = ("" : String) then (if q = ("" : String) then .eq else .gt)
  else if q = ("" : String) then .lt
  else listCmp identCmp (splitOnDot p.toList) (splitOnDot q.toList)

/-- Modelled from the spec: the full comparator (section 4.3) — major, minor
and patch compared as integers, ties broken by the prerelease comparison;
build metadata and the recorded format never participate. -/
def Version.compare (a b : Version) : Ordering :=
  (lcmp a.Major b.Major).then
    ((lcmp a.Minor b.Minor).then
      ((lcmp a.Patch b.Patch).then (preCmp a.Pre b.Pre)))

/-- Modelled from the spec: `Version.Less`, the strict order used by
`VersionList` sorting and `Range.SatisfiedBy`. -/
def Version.Less (a b : Version) : Bool :=
  Version.compare a b == .lt

/-- Modelled from the spec (section 4.3): `equals(a,b)` is defined as
`NOT(less(a,b)) AND NOT(less(b,a))`. -/
def Version.Equals (a b : Version) : Bool :=
  !a.Less b && !b.Less a

/-! ### Lawfulness of the comparator -/

theorem lawful_charCmp : LawfulCmp charCmp :=
  lawful_comap lawful_lcmp Char.toNat

theorem lawful_identCmp : LawfulCmp identCmp where
  symm a b := by
    unfold identCmp
    cases ha : isNumericIdent a <;> cases hb : isNumericIdent b <;> simp only
    · exact (lawful_listCmp lawful_charCmp).symm a b
    · rfl
    · rfl
    · exact lawful_lcmp.symm (digitsVal a) (digitsVal b)
  lt_trans a b c hab hbc := by
    unfold identCmp at hab hbc ⊢
    cases ha : isNumericIdent a <;> cases hb : isNumericIdent b <;>
      cases hc : isNumericIdent c <;>
      simp only [ha, hb, hc] at hab hbc ⊢
    · exact (lawful_listCmp lawful_charCmp).lt_trans a b c hab hbc
    · exact absurd hbc (by decide)
    · exact absurd hab (by decide)
    · exact absurd hab (by decide)
    · exact absurd hbc (by decide)
    · exact lawful_lcmp.lt_trans _ _ _ hab hbc
  eq_congr a b c hab := by
    unfold identCmp at hab ⊢
    cases ha : isNumericIdent a <;> cases hb : isNumericIdent b <;>
      simp only [ha, hb] at hab ⊢
    · cases hc : isNumericIdent c <;> simp only
      exact (lawful_listCmp lawful_charCmp).eq_congr a b c hab
    · exact absurd hab (by decide)
    · exact absurd hab (by decide)
    · cases hc : isNumericIdent c <;> simp only
      rw [lcmp_eq_eq.mp hab]

theorem lawful_preCmp : LawfulCmp preCmp where
  symm p q := by
    by_cases hp : p = ("" : String) <;> by_cases hq : q = ("" : String)
    · subst hp; subst hq; rfl
    · subst hp; simp [preCmp, hq, Ordering.swap]
    · subst hq; simp [preCmp, hp, Ordering.swap]
    · simp only [preCmp, if_neg hp, if_neg hq]
      exact (lawful_listCmp lawful_identCmp).symm _ _
  lt_trans p q r hpq hqr := by
    by_cases hp : p = ("" : String) <;> by_cases hq : q = ("" : String) <;>
      by_cases hr : r = ("" : String)
    · subst hp; subst hq; simp [preCmp] at hpq
    · subst hp; subst hq; simp [preCmp] at hpq
    · subst hp; simp [preCmp, hq] at hpq
    · subst hp; simp [preCmp, hq] at hpq
    · subst hq; subst hr; simp [preCmp] at hqr
    · subst hq; simp [preCmp, hr] at hqr
    · subst hr; simp [preCmp, hp]
    · simp only [preCmp, if_neg hp, if_neg hq, if_neg hr] at hpq hqr ⊢
      exact (lawful_listCmp lawful_identCmp).lt_trans _ _ _ hpq hqr
  eq_congr p q r hpq := by
    by_cases hp : p = ("" : String) <;> by_cases hq : q = ("" : String)
    · subst hp; subst hq; rfl
    · subst hp; simp [preCmp, hq] at hpq
    · subst hq; simp [preCmp, hp] at hpq
    · by_cases hr : r = ("" : String)
      · subst hr; simp [preCmp, hp, hq]
      · simp only [preCmp, if_neg hp, if_neg hq, if_neg hr] at hpq ⊢
        exact (lawful_listCmp lawful_identCmp).eq_congr _ _ _ hpq

theorem lawful_versionCompare : LawfulCmp Version.compare := by
  have h1 : LawfulCmp (fun a b : Version => lcmp a.Major b.Major) :=
    lawful_comap lawful_lcmp Version.Major
  have h2 : LawfulCmp (fun a b : Version => lcmp a.Minor b.Minor) :=
    lawful_comap lawful_lcmp Version.Minor
  have h3 : LawfulCmp (fun a b : Version => lcmp a.Patch b.Patch) :=
    lawful_comap lawful_lcmp Version.Patch
  have h4 : LawfulCmp (fun a b : Version => preCmp a.Pre b.Pre) := by
    have := lawful_preCmp
    exact ⟨fun a b => this.symm _ _, fun a b c => this.lt_trans _ _ _,
      fun a b c => this.eq_congr _ _ _⟩
  exact lawful_then h1 (lawful_then h2 (lawful_then h3 h4))

/-! ## Parser (`parse_version.go`) -/

/-- The scanner modes of the parser (`modeMajor` … `modeMeta`). -/
inductive Mode where
  | major
  | minor
  | patch
  | pre
  | meta
deriving DecidableEq, Repr, BEq

/-- `m++` as used when a `.` advances from major to minor or minor to patch. -/
def Mode.succ : Mode → Mode
  | .major => .minor
  | .minor => .patch
  | .patch => .pre
  | .pre => .meta
  | .meta => .meta

/-- The parse error values of the package, plus the two non-struct errors
it produces: `strconv.Atoi` failures and the "no version found" error of
`ParseAny`. -/
inductive SemvErr where
  | VersionIncomplete (missingPart : String)
  | UnexpectedCharacter (char : Char) (pos : Nat)
  | ZeroLengthNumeric (zeroLengthPart : String)
  | PrecedingZero (precedingZeroPart inputString : String)
  | AtoiError (input : String)
  | NoVersionFound (input : String)
  | UnableToParseRange (input : String)
deriving DecidableEq, Repr

/-- The `digits` constant (`"01234567890"`). -/
def digits : List Char := ("01234567890").toList

/-- `strings.ContainsRune(digits, c)`. -/
def isVersionDigit (c : Char) : Bool := digits.contains c

/-- The `validPreAndMetaChars` constant (`digits + ".-" + lowercase + uppercase`). -/
def validPreAndMetaChars : List Char :=
  digits ++ (".-abcdefghijklmnopqrstuvwxyzABCDEFGHIJKLMNOPQRSTUVWXYZ").toList

/-- `strings.ContainsRune(validPreAndMetaChars, c)`. -/
def isValidPreMetaChar (c : Char) : Bool := validPreAndMetaChars.contains c

/-- The number of bytes of a character in UTF-8, mirroring the byte offsets
produced by Go's `for i, c = range s`. -/
def csize (c : Char) : Nat :=
  if c.toNat < 128 then 1 else if c.toNat < 2048 then 2
  else if c.toNat < 65536 then 3 else 4

/-- The scanner state of `parse`: current mode, the five buffers, and the
four `parsedX` flags. -/
structure ScanState where
  m : Mode
  major : List Char
  minor : List Char
  patch : List Char
  pre : List Char
  meta : List Char
  parsedMinor : Bool
  parsedPatch : Bool
  parsedPre : Bool
  parsedMeta : Bool
deriving DecidableEq, Repr

/-- The scanner's initial state (`m := modeMajor`, empty buffers, no flags). -/
def initState : ScanState := ⟨.major, [], [], [], [], [], false, false, false, false⟩

/-- The flag updates at the top of the scan loop
(`if m == modeMinor { parsedMinor = true }` and the three like it; the mode
equals at most one of the four compared constants, so the four independent
`if`s amount to a dispatch on the mode). -/
def setFlags (st : ScanState) : ScanState :=
  match st.m with
  | .major => st
  | .minor => { st with parsedMinor := true }
  | .patch => { st with parsedPatch := true }
  | .pre => { st with parsedPre := true }
  | .meta => { st with parsedMeta := true }

/-- The `changeMode` closure of `parse`: decides whether the character `c`
at byte position `i` switches the scanner's mode, is an error, or is
literal content; returns (changed, error, new mode). -/
def changeMode (m : Mode) (c : Char) (i : Nat) : Bool × Option SemvErr × Mode :=
  if (m == Mode.pre || m == Mode.meta) && c == ('-' : Char) then (false, none, m)
  else if m == Mode.meta && c == ('+' : Char) then
    (false, some (.UnexpectedCharacter c i), m)
  else if m == Mode.patch && c == ('.' : Char) then
    (false, some (.UnexpectedCharacter c i), m)
  else if (m == Mode.major || m == Mode.minor) && c == ('.' : Char) then
    (true, none, m.succ)
  else if c == ('-' : Char) then (true, none, .pre)
  else if c == ('+' : Char) then (true, none, .meta)
  else (false, none, m)

/-- `targets[m].WriteRune(c)`: append `c` to the buffer selected by the mode. -/
def ScanState.push (st : ScanState) (c : Char) : ScanState :=
  match st.m with
  | .major => { st with major := st.major ++ [c] }
  | .minor => { st with minor := st.minor ++ [c] }
  | .patch => { st with patch := st.patch ++ [c] }
  | .pre => { st with pre := st.pre ++ [c] }
  | .meta => { st with meta := st.meta ++ [c] }

/-- The per-character append step of the scan loop: a digit in a numeric
mode, or a valid character in pre/meta mode, is appended; anything else is
an `UnexpectedCharacter` error. -/
def appendChar (st : ScanState) (c : Char) (i : Nat) : Except SemvErr ScanState :=
  match st.m with
  | .major | .minor | .patch =>
    if isVersionDigit c then .ok (st.push c)
    else .error (.UnexpectedCharacter c i)
  | .pre | .meta =>
    if isValidPreMetaChar c then .ok (st.push c)
    else .error (.UnexpectedCharacter c i)

/-- The scan loop of `parse` (`for i, c = range s`). Returns the final state
together with the error, if any, that aborted the scan (on abort the Go
code calls `finalise(err)` with the buffers as they stand; here the aborted
state and error are returned and the caller finalises). -/
def parseLoop : List Char → Nat → ScanState → ScanState × Option SemvErr
  | [], _, st => (st, none)
  | c :: cs, i, st =>
    let st1 := setFlags st
    if c == ('.' : Char) || c == ('-' : Char) || c == ('+' : Char) then
      match changeMode st1.m c i with
      | (_, some e, _) => (st1, some e)
      | (true, none, m') => parseLoop cs (i + csize c) { st1 with m := m' }
      | (false, none, _) =>
        match appendChar st1 c i with
        | .ok st2 => parseLoop cs (i + csize c) st2
        | .error e => (st1, some e)
    else
      match appendChar st1 c i with
      | .ok st2 => parseLoop cs (i + csize c) st2
      | .error e => (st1, some e)

/-- `validateMMPFormat` of `parse_version.go`: empty numeric components and
leading zeros are defects. -/
def validateMMPFormat (s : List Char) (name : String) : Option SemvErr :=
  if s.length = 0 then some (.ZeroLengthNumeric name)
  else if 1 < s.length ∧ s.headD (' ') = ('0' : Char) then
    some (.PrecedingZero name (String.mk s))
  else none

/-- The largest value of Go's 64-bit `int`. -/
def maxInt64 : Int := 2 ^ 63 - 1

/-- Two's-complement wrap-around of 64-bit `int` arithmetic: the unique
representative of `x` modulo `2^64` lying in `[-2^63, 2^63)`. -/
def wrapInt64 (x : Int) : Int := (x + 2 ^ 63) % 2 ^ 64 - 2 ^ 63

/-- `strconv.Atoi` on a scanner buffer (value and error of Go's
`(int, error)` pair, the error as an `Option`): syntax failure on an empty
or non-digit buffer (value `0`), and a range failure on any value that
overflows 64-bit `int`, for which Go returns `maxInt64` together with
`ErrRange`. The buffers hold unsigned decimal digit runs, so the negative
branch of `ParseInt` never arises. -/
def atoi (s : List Char) : Int × Option SemvErr :=
  if s.isEmpty || !s.all Char.isDigit then (0, some (.AtoiError (String.mk s)))
  else if 2 ^ 63 ≤ digitsVal s then (maxInt64, some (.AtoiError (String.mk s)))
  else (Int.ofNat (digitsVal s), none)

/-- The format-string constants of the package. -/
def Major : String := "M"

def Minor : String := "m"

def Patch : String := "p"

def PreDelim : String := "-"

def Pre : String := PreDelim ++ "?"

def PreRaw : String := PreDelim ++ "!"

def MetaDelim : String := "+"

def Meta : String := MetaDelim ++ "?"

def MetaRaw : String := MetaDelim ++ "!"

def MajorMinor : String := Major ++ "." ++ Minor

def MajorMinorPatch : String := MajorMinor ++ "." ++ Patch

def MMPPre : String := MajorMinorPatch ++ Pre

def Complete : String := MMPPre ++ Meta

/-- `knownErrors = append(knownErrors, err)` guarded by `err != nil`. -/
def appendErr (ke : List (Option SemvErr)) (e : Option SemvErr) :
    List (Option SemvErr) :=
  match e with
  | some e => ke ++ [some e]
  | none => ke

/-- The tail of `finalise`: the `parsedPre` / `parsedMeta` format suffixes
and the assignment of the pre and meta buffers. -/
def finaliseTail (st : ScanState) (v : Version) (ke : List (Option SemvErr)) :
    Version × List (Option SemvErr) :=
  let v1 := if st.parsedPre then { v with DefaultFormat := v.DefaultFormat ++ ("-?") } else v
  let v2 := if st.parsedMeta then { v1 with DefaultFormat := v1.DefaultFormat ++ ("+?") } else v1
  ({ v2 with Pre := String.mk st.pre, Meta := String.mk st.meta }, ke)

/-- The `parsedPatch` block of `finalise`. -/
def finalisePatch (st : ScanState) (v : Version) (ke : List (Option SemvErr)) :
    Version × List (Option SemvErr) :=
  if st.parsedPatch then
    let v2 := { v with DefaultFormat := MajorMinorPatch }
    let ke1 := appendErr ke (validateMMPFormat st.patch ("patch"))
    match atoi st.patch with
    | (patchVal, some e) => ({ v2 with Patch := patchVal }, ke1 ++ [some e])
    | (patchVal, none) => finaliseTail st { v2 with Patch := patchVal } ke1
  else finaliseTail st v ke

/-- The `finalise` closure of `parse` (`parse_version.go`): converts the
buffers into a partial `Version`, collecting validation defects into the
error list and aborting on an `Atoi` failure. -/
def finalise (st : ScanState) (knownErrors : List (Option SemvErr)) :
    Version × List (Option SemvErr) :=
  let v0 : Version :=
    { Major := 0, Minor := 0, Patch := 0, Pre := "", Meta := "", DefaultFormat := Major }
  let ke0 := appendErr knownErrors (validateMMPFormat st.major ("major"))
  match atoi st.major with
  | (majorVal, some e) => ({ v0 with Major := majorVal }, ke0 ++ [some e])
  | (majorVal, none) =>
    let v1 := { v0 with Major := majorVal }
    if st.parsedMinor then
      let v2 := { v1 with DefaultFormat := MajorMinor }
      let ke1 := appendErr ke0 (validateMMPFormat st.minor ("minor"))
      match atoi st.minor with
      | (minorVal, some e) => ({ v2 with Minor := minorVal }, ke1 ++ [some e])
      | (minorVal, none) => finalisePatch st { v2 with Minor := minorVal } ke1
    else finalisePatch st v1 ke0

/-- `parse` of `parse_version.go`: scan, then finalise with the trailing
completeness checks. -/
def parse (s : String) : Version × List (Option SemvErr) :=
  match parseLoop s.toList 0 initState with
  | (st, some e) => finalise st [some e]
  | (st, none) =>
    if !st.parsedMinor then finalise st [some (.VersionIncomplete ("minor"))]
    else if !st.parsedPatch then finalise st [some (.VersionIncomplete ("patch"))]
    else finalise st [none]

/-- Whether permissive `Parse` skips this error entry (`nil`,
`PrecedingZero` and `VersionIncomplete` are skipped). -/
def skippedByParse : Option SemvErr → Bool
  | none => true
  | some (.PrecedingZero _ _) => true
  | some (.VersionIncomplete _) => true
  | some _ => false

/-- `Parse` of `parse_version.go`: permissive parsing, returning the first
scan error that is not `nil`, `PrecedingZero` or `VersionIncomplete`. -/
def Parse (s : String) : Version × Option SemvErr :=
  let p := parse s
  match p.2.find? (fun e => !skippedByParse e) with
  | some e => (p.1, e)
  | none => (p.1, none)

/-- `firstErr`: the first non-nil error of the list. -/
def firstErr (errs : List (Option SemvErr)) : Option SemvErr :=
  match errs.find? (fun e => e.isSome) with
  | some e => e
  | none => none

/-- `ParseExactSemver2` of `parse_version.go`: strict semver-2.0.0
parsing — every defect of the scan is an error. -/
def ParseExactSemver2 (s : String) : Version × Option SemvErr :=
  let p := parse s
  (p.1, firstErr p.2)

/-- `ParseAny`: starts parsing at the first decimal digit
(`strings.IndexAny(s, digits)`), failing only when no digit occurs anywhere
in the string; the error of the inner permissive `Parse` is discarded. -/
def ParseAny (s : String) : Version × Option SemvErr :=
  let rest := s.toList.dropWhile (fun c => !isVersionDigit c)
  if rest.isEmpty then
    (⟨0, 0, 0, "", "", ""⟩, some (.NoVersionFound s))
  else ((Parse (String.mk rest)).1, none)

/-! ## Formatter (`version.go`: `Format` / `String`) -/

/-- The decimal digit character for `n < 10`. -/
def digitChar : Nat → Char
  | 0 => '0'
  | 1 => '1'
  | 2 => '2'
  | 3 => '3'
  | 4 => '4'
  | 5 => '5'
  | 6 => '6'
  | 7 => '7'
  | 8 => '8'
  | _ => '9'

/-- Decimal digits of `n`, most significant first; fuel-based so that the
recursion is structural. `natDigitsAux f n` is correct whenever `n ≤ f`. -/
def natDigitsAux : Nat → Nat → List Char
  | 0, n => [digitChar n]
  | f + 1, n =>
    if n < 10 then [digitChar n]
    else natDigitsAux f (n / 10) ++ [digitChar (n % 10)]

/-- Decimal digits of a natural number, most significant first. -/
def natDigits (n : Nat) : List Char := natDigitsAux n n

/-- `fmt.Sprint` of a Go `int`. -/
def intToString (n : Int) : String :=
  if n < 0 then ("-") ++ String.mk (natDigits n.natAbs)
  else String.mk (natDigits n.toNat)

/-- Whether `pat` is a prefix of the second list. -/
def startsWithL : List Char → List Char → Bool
  | [], _ => true
  | _ :: _, [] => false
  | p :: ps, c :: cs => p == c && startsWithL ps cs

/-- Work loop of `strings.Replace(s, old, new, -1)`: replace every
non-overlapping occurrence of `pat`, scanning left to right and never
rescanning replaced text. One unit of fuel is spent per step and every
step consumes at least one character of a non-empty pattern's input, so
fuel equal to the length of the string suffices. -/
def replaceAux (pat rep : List Char) : Nat → List Char → List Char
  | 0, s => s
  | _ + 1, [] => []
  | f + 1, c :: cs =>
    if startsWithL pat (c :: cs) then
      rep ++ replaceAux pat rep f ((c :: cs).drop pat.length)
    else c :: replaceAux pat rep f cs

/-- `strings.Replace(s, old, new, -1)`. (With an empty `old` Go would
insert `new` between all characters; no caller in the package passes an
empty pattern, and that case is left as the identity.) -/
def goReplace (s old new : String) : String :=
  if old = ("" : String) then s
  else String.mk (replaceAux old.toList new.toList s.toList.length s.toList)

/-- `replaceAll(format, map{M: major, m: minor, p: patch})` — Go iterates
the map in unspecified order; the patterns are distinct single letters and
the substituted values decimal numerals, so the three replacements commute
and a fixed order is faithful. -/
def replaceNums (s : String) (majorVal minorVal patchVal : Int) : String :=
  goReplace
    (goReplace (goReplace s Major (intToString majorVal)) Minor (intToString minorVal))
    Patch (intToString patchVal)

/-- `Version.Format` of `version.go`: template substitution of the
major/minor/patch numerals and the four prerelease/metadata placeholders;
the empty template means `Complete` (`"M.m.p-?+?"`). -/
def Version.Format (v : Version) (format : String) : String :=
  let format := if format = ("" : String) then Complete else format
  let formatted := replaceNums format v.Major v.Minor v.Patch
  let formatted :=
    if v.Pre ≠ ("" : String) then goReplace formatted Semv.Pre (PreDelim ++ v.Pre)
    else goReplace formatted Semv.Pre ("")
  let formatted :=
    if v.Meta ≠ ("" : String) then goReplace formatted Semv.Meta (MetaDelim ++ v.Meta)
    else goReplace formatted Semv.Meta ("")
  let formatted := goReplace formatted PreRaw v.Pre
  goReplace formatted MetaRaw v.Meta

/-- `Version.String`: format the version with its recorded shape. -/
def Version.String (v : Version) : String := v.Format v.DefaultFormat

/-! ## Ranges (`range.go`) -/

/-- The `Range` struct of `range.go`: four nullable bounds, modelled as
options. -/
structure Range where
  Min : Option Version
  MinEqual : Option Version
  Max : Option Version
  MaxEqual : Option Version
deriving DecidableEq, Repr

/-- `GreaterThan(v)`: an exclusive lower bound only. -/
def GreaterThan (v : Version) : Range := ⟨some v, none, none, none⟩

/-- `LessThan(v)`: an exclusive upper bound only. -/
def LessThan (v : Version) : Range := ⟨none, none, some v, none⟩

/-- `EqualTo(v)`: inclusive lower and upper bounds at `v`. -/
def EqualTo (v : Version) : Range := ⟨none, some v, none, some v⟩

/-- `GreaterThanOrEqualTo(v)`: an inclusive lower bound only. -/
def GreaterThanOrEqualTo (v : Version) : Range := ⟨none, some v, none, none⟩

/-- `LessThanOrEqualTo(v)`: an inclusive upper bound only. -/
def LessThanOrEqualTo (v : Version) : Range := ⟨none, none, none, some v⟩

/-- `Range.SatisfiedBy` of `range.go`: each present bound must admit `v`,
via the comparator's `Less` and `Equals`. -/
def Range.SatisfiedBy (r : Range) (v : Version) : Bool :=
  (match r.Min with | some m => m.Less v | none => true) &&
  (match r.Max with | some m => v.Less m | none => true) &&
  (match r.MinEqual with | some m => v.Equals m || m.Less v | none => true) &&
  (match r.MaxEqual with | some m => v.Equals m || v.Less m | none => true)

/-- The outcome of a Go function that can also panic at runtime
(`ParseRange` slices `s[:2]`, which panics when the string is shorter than
two bytes). -/
inductive GoResult (α : Type) where
  | ok (value : α)
  | err (e : SemvErr)
  | panicked (msg : String)
deriving DecidableEq, Repr

/-- Byte length of a string (Go `len(s)`). -/
def byteLen (s : String) : Nat := (s.toList.map csize).sum

/-- `ParseRange` of `range.go`. `ParseAny` runs first; then the code
evaluates `s[:2]`, which panics when `len(s) < 2`. The `switch s[:2]` and
`switch s[0]` comparisons are against ASCII patterns, for which comparing
the first one or two characters is equivalent to comparing the first one
or two bytes. The `max.Minor++` / `max.Major++` increments are Go 64-bit
`int` increments and wrap around (`wrapInt64`). -/
def ParseRange (s : String) : GoResult Range :=
  match ParseAny s with
  | (_, some e) => .err e
  | (v, none) =>
    if byteLen s < 2 then .panicked ("runtime error: slice bounds out of range")
    else
      let p2 := s.toList.take 2
      if p2 = ['=', '='] then .ok (EqualTo v)
      else if p2 = ['>', '='] then .ok (GreaterThanOrEqualTo v)
      else if p2 = ['<', '='] then .ok (LessThanOrEqualTo v)
      else
        match s.toList with
        | [] => .err (.UnableToParseRange s)
        | c :: _ =>
          if c = ('=' : Char) ∨ isVersionDigit c then .ok (EqualTo v)
          else if c = ('>' : Char) then .ok (GreaterThan v)
          else if c = ('<' : Char) then .ok (LessThan v)
          else if c = ('~' : Char) then
            .ok ⟨none, some v, some { v with Minor := wrapInt64 (v.Minor + 1), Patch := 0 }, none⟩
          else if c = ('^' : Char) then
            .ok ⟨none, some v, some { v with Major := wrapInt64 (v.Major + 1), Minor := 0, Patch := 0 }, none⟩
          else .err (.UnableToParseRange s)

/-! ## VersionList (collection queries) -/

/-- `VersionList` is a slice of versions. -/
abbrev VersionList := List Version

/-- Insertion of a version into an ascending list (helper for `Sorted`). -/
def insertAsc (v : Version) : List Version → List Version
  | [] => [v]
  | w :: ws => if v.Less w then v :: w :: ws else w :: insertAsc v ws

/-- `VersionList.Sorted`: `sort.Sort(vl)` sorts ascending by
`VersionList.Less i j = vl[i].Less(vl[j])`. Go's sort is unstable, so its
result is determined only up to the relative order of elements equal under
the comparator; insertion sort produces one such ascending ordering and
agrees with `sort.Sort` exactly on lists (such as every concrete list used
below) whose elements are pairwise distinct under the comparator. -/
def Sorted (vl : VersionList) : VersionList :=
  vl.foldr insertAsc []

/-- `VersionList.SortedDesc` of the source: `sort.Sort(vl)` sorts the list
ascending, and the following `sort.Reverse(vl)` merely wraps the list in a
reversed-comparator adapter — it does not sort anything, and its result is
discarded — so the function returns the ascending-sorted list. -/
def SortedDesc (vl : VersionList) : VersionList := Sorted vl

/-- `VersionList.GreatestSatisfying`: the first element of `SortedDesc`
satisfying the range; the Go `(Version, bool)` pair is modelled as an
`Option Version`. -/
def GreatestSatisfying (vl : VersionList) (r : Range) : Option Version :=
  (SortedDesc vl).find? (fun v => r.SatisfiedBy v)

/-! ## Helper lemmas -/

/-- Transporting a decidable fact over every character of a concrete
character class to one of its members. -/
theorem char_class {l : List Char} {p : Char → Bool} (hall : l.all p = true)
    {c : Char} (h : l.contains c = true) : p c = true := by
  have hmem : c ∈ l := by simpa using h
  exact List.all_eq_true.mp hall c hmem

/-- The scanner's digit characters are one UTF-8 byte wide. -/
theorem csize_of_digit {c : Char} (h : isVersionDigit c = true) : csize c = 1 := by
  have := char_class (l := digits) (p := fun c => decide (csize c = 1)) (by decide) h
  simpa using this

/-- Every character is at least one byte wide. -/
theorem one_le_csize (c : Char) : 1 ≤ csize c := by
  unfold csize
  split_ifs <;> omega

/-- A string has at least as many bytes as characters. -/
theorem length_le_byteLen (s : String) : s.toList.length ≤ byteLen s := by
  unfold byteLen
  induction s.toList with
  | nil => simp
  | cons c cs ih =>
    simp only [List.map_cons, List.sum_cons, List.length_cons]
    have := one_le_csize c
    omega

/-! ## Claims -/

/-- Claim C9: a `Range` with no bounds at all (all four bound fields
absent) is satisfied by every version: `SatisfiedBy` on the empty range
always returns `true`. -/
theorem C9_empty_range_satisfied_by_all (v : Version) :
    Range.SatisfiedBy ⟨none, none, none, none⟩ v = true := rfl

/-- Claim C7: strict parsing of `"01.2.3"` fails with a `PrecedingZero`
error, and strict parsing of `"1.2"` fails with a `VersionIncomplete`
error naming the patch component. -/
theorem C7_strict_rejections :
    (ParseExactSemver2 ("01.2.3")).2 =
      some (.PrecedingZero ("major") ("01")) ∧
    (ParseExactSemver2 ("1.2")).2 = some (.VersionIncomplete ("patch")) := by
  constructor <;> decide

/-- Claim C1, evaluated at the failing input: on the collection
`["0.9.0","0.9.9","1.0.0"]` the parsed range `"^0.9.0"` is satisfied by
`0.9.9` (which is greater than `0.9.0`), yet `GreatestSatisfying` returns
`0.9.0` — the lowest satisfying element, because `SortedDesc` returns the
ascending list (its `sort.Reverse(vl)` result is discarded). -/
theorem C1_greatest_satisfying_returns_lowest :
    ParseRange ("^0.9.0") =
      .ok ⟨none, some ⟨0, 9, 0, "", "", "M.m.p"⟩,
           some ⟨1, 0, 0, "", "", "M.m.p"⟩, none⟩ ∧
    GreatestSatisfying
      [(Parse ("0.9.0")).1, (Parse ("0.9.9")).1, (Parse ("1.0.0")).1]
      ⟨none, some ⟨0, 9, 0, "", "", "M.m.p"⟩,
       some ⟨1, 0, 0, "", "", "M.m.p"⟩, none⟩ = some ((Parse ("0.9.0")).1) ∧
    Range.SatisfiedBy
      ⟨none, some ⟨0, 9, 0, "", "", "M.m.p"⟩,
       some ⟨1, 0, 0, "", "", "M.m.p"⟩, none⟩ ((Parse ("0.9.9")).1) = true ∧
    (Parse ("0.9.0")).1.Less ((Parse ("0.9.9")).1) = true := by
  exact ⟨by decide, by decide, by decide, by decide⟩

/-- Claim C2, evaluated at the failing input: `SortedDesc` of
`["2.0.0","1.0.0"]` is the ascending list `["1.0.0","2.0.0"]`, which is
not the reverse of `Sorted` — the element at index 0 of `SortedDesc`
differs from the element at index `length - 1 - 0` of `Sorted`. -/
theorem C2_sorted_desc_is_not_reverse :
    SortedDesc [(Parse ("2.0.0")).1, (Parse ("1.0.0")).1] =
      [(Parse ("1.0.0")).1, (Parse ("2.0.0")).1] ∧
    (Sorted [(Parse ("2.0.0")).1, (Parse ("1.0.0")).1]).reverse =
      [(Parse ("2.0.0")).1, (Parse ("1.0.0")).1] ∧
    (Parse ("1.0.0")).1 ≠ (Parse ("2.0.0")).1 := by
  exact ⟨by decide, by decide, by decide⟩

/-- Claim C10: `ParseRange` is not total at the public interface — on every
single-character input holding one decimal digit, `ParseAny` succeeds, and
`ParseRange` then evaluates `s[:2]` on a length-1 string, which panics
(out of range) instead of returning a `Range` or an error. -/
theorem C10_single_digit_panics (c : Char) (h : isVersionDigit c = true) :
    (ParseAny (String.mk [c])).2 = none ∧
    ParseRange (String.mk [c]) =
      .panicked ("runtime error: slice bounds out of range") := by
  have hmem : c ∈ digits := by simpa [isVersionDigit] using h
  fin_cases hmem <;> exact ⟨by decide, by decide⟩

/-- Concrete instance of claim C10 at the input `"1"`. -/
theorem C10_witness :
    isVersionDigit ('1') = true ∧
    ((ParseAny (String.mk ['1'])).2 = none ∧
     ParseRange (String.mk ['1']) =
       .panicked ("runtime error: slice bounds out of range")) :=
  ⟨by decide, C10_single_digit_panics ('1') (by decide)⟩

/-- Claim C8: `ParseAny` returns an error exactly when the input contains
no decimal digit anywhere; when at least one digit is present it returns a
`Version` and no error, regardless of any parse defects in the text after
the first digit. -/
theorem C8_parse_any_error_iff_no_digit (s : String) :
    ((∀ c ∈ s.toList, isVersionDigit c = false) → (ParseAny s).2.isSome = true) ∧
    ((∃ c ∈ s.toList, isVersionDigit c = true) → (ParseAny s).2 = none) := by
  constructor
  · intro hnone
    have hrest : s.toList.dropWhile (fun c => !isVersionDigit c) = [] := by
      rw [List.dropWhile_eq_nil_iff]
      intro c hc
      simp [hnone c hc]
    unfold ParseAny
    rw [hrest]
    rfl
  · rintro ⟨c, hc, hdig⟩
    have hrest : ¬ s.toList.dropWhile (fun c => !isVersionDigit c) = [] := by
      rw [List.dropWhile_eq_nil_iff]
      intro hall
      have := hall c hc
      simp [hdig] at this
    cases hdw : s.toList.dropWhile (fun c => !isVersionDigit c) with
    | nil => exact absurd hdw hrest
    | cons a as =>
      unfold ParseAny
      rw [hdw]
      rfl

/-- Concrete instances of claim C8: `"abc"` has no digit and errors;
`"a1b"` has a digit and succeeds. -/
theorem C8_witness :
    (ParseAny ("abc")).2.isSome = true ∧ (ParseAny ("a1b")).2 = none :=
  ⟨(C8_parse_any_error_iff_no_digit ("abc")).1 (by decide),
   (C8_parse_any_error_iff_no_digit ("a1b")).2 ⟨('1'), by decide, by decide⟩⟩

/-- An error entry of the kinds the claim calls grammar violations:
`UnexpectedCharacter`, `ZeroLengthComponent` (`ZeroLengthNumeric`), or
`NoDigitsFound` (`NoVersionFound`). -/
def grammarDefect : Option SemvErr → Bool
  | some (.UnexpectedCharacter _ _) => true
  | some (.ZeroLengthNumeric _) => true
  | some (.NoVersionFound _) => true
  | _ => false

/-- Claim C4: permissive `Parse` succeeds whenever the only defects found
by the scan are `PrecedingZero` or `VersionIncomplete` (the defaults are
applied instead), and returns an error whenever the scan produced an
`UnexpectedCharacter`, `ZeroLengthNumeric`, or `NoVersionFound` defect. -/
theorem C4_permissive_error_policy (s : String) :
    ((parse s).2.all skippedByParse = true → (Parse s).2 = none) ∧
    (∀ e ∈ (parse s).2, grammarDefect e = true → (Parse s).2.isSome = true) := by
  constructor
  · intro hall
    have hfind : (parse s).2.find? (fun e => !skippedByParse e) = none := by
      rw [List.find?_eq_none]
      intro e he
      simp [List.all_eq_true.mp hall e he]
    simp [Parse, hfind]
  · intro e he hg
    have hns : (!skippedByParse e) = true := by
      cases e with
      | none => simp [grammarDefect] at hg
      | some err => cases err <;> simp_all [grammarDefect, skippedByParse]
    have hsome : ((parse s).2.find? (fun e => !skippedByParse e)).isSome = true := by
      rw [List.find?_isSome]
      exact ⟨e, he, hns⟩
    obtain ⟨x, hx⟩ := Option.isSome_iff_exists.mp hsome
    have hxp := List.find?_some hx
    cases x with
    | none => simp [skippedByParse] at hxp
    | some err => simp [Parse, hx]

/-- Concrete instances of claim C4: `"01.2"` only has `PrecedingZero` and
`VersionIncomplete` defects and parses; `"1.x.2"` has an
`UnexpectedCharacter` defect and errors. -/
theorem C4_witness :
    (Parse ("01.2")).2 = none ∧ (Parse ("1.x.2")).2.isSome = true :=
  ⟨(C4_permissive_error_policy ("01.2")).1 (by decide),
   (C4_permissive_error_policy ("1.x.2")).2
     (some (.UnexpectedCharacter ('x') 2)) (by decide) (by decide)⟩

/-- `Less` is the `.lt` outcome of the comparator. -/
theorem less_iff_lt {a b : Version} :
    a.Less b = true ↔ Version.compare a b = .lt := by
  unfold Version.Less
  cases h : Version.compare a b <;> decide

/-- `Less` is false on an `.eq` comparison. -/
theorem less_false_of_eq {a b : Version} (h : Version.compare a b = .eq) :
    a.Less b = false := by
  unfold Version.Less
  rw [h]
  rfl

/-- `Less` is false on a `.gt` comparison. -/
theorem less_false_of_gt {a b : Version} (h : Version.compare a b = .gt) :
    a.Less b = false := by
  unfold Version.Less
  rw [h]
  rfl

/-- Claim C3: the comparison (`Less`/`Equals`) is a strict total order on
valid versions — exactly one of `a<b`, `a==b`, `b<a` holds and `<` is
transitive — and it agrees with semver 2.0.0 precedence on the official
working example chain, pairwise. -/
theorem C3_strict_total_order_and_chain :
    (∀ a b c : Version,
      a.Validate = true → b.Validate = true → c.Validate = true →
      ((a.Less b = true ∧ a.Equals b = false ∧ b.Less a = false) ∨
       (a.Less b = false ∧ a.Equals b = true ∧ b.Less a = false) ∨
       (a.Less b = false ∧ a.Equals b = false ∧ b.Less a = true)) ∧
      (a.Less b = true → b.Less c = true → a.Less c = true)) ∧
    List.Pairwise (fun a b => a.Less b = true)
      [(ParseExactSemver2 ("1.0.0-alpha")).1, (ParseExactSemver2 ("1.0.0-alpha.1")).1,
       (ParseExactSemver2 ("1.0.0-alpha.beta")).1, (ParseExactSemver2 ("1.0.0-beta")).1,
       (ParseExactSemver2 ("1.0.0-beta.2")).1, (ParseExactSemver2 ("1.0.0-beta.11")).1,
       (ParseExactSemver2 ("1.0.0-rc.1")).1, (ParseExactSemver2 ("1.0.0")).1] := by
  constructor
  · intro a b c _ _ _
    constructor
    · cases h : Version.compare a b with
      | lt =>
        have hba : Version.compare b a = .gt := by
          rw [lawful_versionCompare.gt_iff]
          exact h
        exact Or.inl ⟨less_iff_lt.mpr h,
          by unfold Version.Equals; rw [less_iff_lt.mpr h]; rfl,
          less_false_of_gt hba⟩
      | eq =>
        have hba : Version.compare b a = .eq := lawful_versionCompare.eq_symm h
        exact Or.inr (Or.inl ⟨less_false_of_eq h,
          by unfold Version.Equals; rw [less_false_of_eq h, less_false_of_eq hba]; rfl,
          less_false_of_eq hba⟩)
      | gt =>
        have hba : Version.compare b a = .lt := lawful_versionCompare.gt_iff.mp h
        exact Or.inr (Or.inr ⟨less_false_of_gt h,
          by unfold Version.Equals; rw [less_false_of_gt h, less_iff_lt.mpr hba]; rfl,
          less_iff_lt.mpr hba⟩)
    · intro hab hbc
      exact less_iff_lt.mpr
        (lawful_versionCompare.lt_trans a b c (less_iff_lt.mp hab) (less_iff_lt.mp hbc))
  · decide

/-- Concrete instance of claim C3's quantified part at the versions
`1.0.0 < 2.0.0` (with `3.0.0` as the third element). -/
theorem C3_witness :
    ((⟨1, 0, 0, "", "", "M.m.p"⟩ : Version).Validate = true ∧
     (⟨2, 0, 0, "", "", "M.m.p"⟩ : Version).Validate = true ∧
     (⟨3, 0, 0, "", "", "M.m.p"⟩ : Version).Validate = true) ∧
    ((((⟨1, 0, 0, "", "", "M.m.p"⟩ : Version).Less ⟨2, 0, 0, "", "", "M.m.p"⟩ = true ∧
       (⟨1, 0, 0, "", "", "M.m.p"⟩ : Version).Equals ⟨2, 0, 0, "", "", "M.m.p"⟩ = false ∧
       (⟨2, 0, 0, "", "", "M.m.p"⟩ : Version).Less ⟨1, 0, 0, "", "", "M.m.p"⟩ = false) ∨
      ((⟨1, 0, 0, "", "", "M.m.p"⟩ : Version).Less ⟨2, 0, 0, "", "", "M.m.p"⟩ = false ∧
       (⟨1, 0, 0, "", "", "M.m.p"⟩ : Version).Equals ⟨2, 0, 0, "", "", "M.m.p"⟩ = true ∧
       (⟨2, 0, 0, "", "", "M.m.p"⟩ : Version).Less ⟨1, 0, 0, "", "", "M.m.p"⟩ = false) ∨
      ((⟨1, 0, 0, "", "", "M.m.p"⟩ : Version).Less ⟨2, 0, 0, "", "", "M.m.p"⟩ = false ∧
       (⟨1, 0, 0, "", "", "M.m.p"⟩ : Version).Equals ⟨2, 0, 0, "", "", "M.m.p"⟩ = false ∧
       (⟨2, 0, 0, "", "", "M.m.p"⟩ : Version).Less ⟨1, 0, 0, "", "", "M.m.p"⟩ = true)) ∧
     ((⟨1, 0, 0, "", "", "M.m.p"⟩ : Version).Less ⟨2, 0, 0, "", "", "M.m.p"⟩ = true →
      (⟨2, 0, 0, "", "", "M.m.p"⟩ : Version).Less ⟨3, 0, 0, "", "", "M.m.p"⟩ = true →
      (⟨1, 0, 0, "", "", "M.m.p"⟩ : Version).Less ⟨3, 0, 0, "", "", "M.m.p"⟩ = true)) :=
  ⟨⟨by decide, by decide, by decide⟩,
   C3_strict_total_order_and_chain.1
     ⟨1, 0, 0, "", "", "M.m.p"⟩ ⟨2, 0, 0, "", "", "M.m.p"⟩ ⟨3, 0, 0, "", "", "M.m.p"⟩
     (by decide) (by decide) (by decide)⟩

/-- Claim C6: with `v` the version parsed from the remainder, `ParseRange`
of `"~" ++ r` produces the lower-inclusive bound `v` and upper-exclusive
bound `v` with minor incremented (Go's 64-bit `max.Minor++`, which wraps:
`wrapInt64 (Minor + 1)`) and patch zeroed, and `ParseRange` of `"^" ++ r`
produces lower-inclusive `v` and upper-exclusive `v` with major
incremented and minor and patch zeroed; moreover, whenever the incremented
component lies in 64-bit range below `maxInt64`, the wrapped increment is
the arithmetic successor. -/
theorem C6_tilde_caret_bounds (r : String) (v w : Version) (hr : r.toList ≠ [])
    (hv : ParseAny (String.mk (('~' : Char) :: r.toList)) = (v, none))
    (hw : ParseAny (String.mk (('^' : Char) :: r.toList)) = (w, none)) :
    (ParseRange (String.mk (('~' : Char) :: r.toList)) =
      .ok ⟨none, some v, some { v with Minor := wrapInt64 (v.Minor + 1), Patch := 0 }, none⟩ ∧
     ParseRange (String.mk (('^' : Char) :: r.toList)) =
      .ok ⟨none, some w, some { w with Major := wrapInt64 (w.Major + 1), Minor := 0, Patch := 0 }, none⟩) ∧
    ((-(2 ^ 63) ≤ v.Minor → v.Minor < maxInt64 → wrapInt64 (v.Minor + 1) = v.Minor + 1) ∧
     (-(2 ^ 63) ≤ w.Major → w.Major < maxInt64 → wrapInt64 (w.Major + 1) = w.Major + 1)) := by
  refine ⟨?_,
    fun hlo hhi => by unfold wrapInt64; unfold maxInt64 at hhi; omega,
    fun hlo hhi => by unfold wrapInt64; unfold maxInt64 at hhi; omega⟩
  obtain ⟨c2, l, hl⟩ : ∃ c2 l, r.toList = c2 :: l := by
    cases h : r.toList with
    | nil => exact absurd h hr
    | cons c2 l => exact ⟨c2, l, rfl⟩
  have hlen : r.toList.length = l.length + 1 := by rw [hl]; rfl
  constructor
  · have hb : ¬ byteLen (String.mk (('~' : Char) :: r.toList)) < 2 := by
      have h1 := length_le_byteLen (String.mk (('~' : Char) :: r.toList))
      have h2 : (String.mk (('~' : Char) :: r.toList)).toList.length = l.length + 2 := by
        show (('~' : Char) :: r.toList).length = l.length + 2
        rw [List.length_cons, hlen]
      omega
    unfold ParseRange
    simp only [hv]
    rw [if_neg hb]
    rfl
  · have hb : ¬ byteLen (String.mk (('^' : Char) :: r.toList)) < 2 := by
      have h1 := length_le_byteLen (String.mk (('^' : Char) :: r.toList))
      have h2 : (String.mk (('^' : Char) :: r.toList)).toList.length = l.length + 2 := by
        show (('^' : Char) :: r.toList).length = l.length + 2
        rw [List.length_cons, hlen]
      omega
    unfold ParseRange
    simp only [hw]
    rw [if_neg hb]
    rfl

/-- Concrete instance of claim C6 at the remainder `"1.2.3"` (where the
wrapped increments coincide with the arithmetic ones). -/
theorem C6_witness :
    ParseRange (String.mk (('~' : Char) :: ("1.2.3").toList)) =
      .ok ⟨none, some ⟨1, 2, 3, "", "", "M.m.p"⟩,
           some ⟨1, 3, 0, "", "", "M.m.p"⟩, none⟩ ∧
    ParseRange (String.mk (('^' : Char) :: ("1.2.3").toList)) =
      .ok ⟨none, some ⟨1, 2, 3, "", "", "M.m.p"⟩,
           some ⟨2, 0, 0, "", "", "M.m.p"⟩, none⟩ := by
  have h := (C6_tilde_caret_bounds ("1.2.3")
    ⟨1, 2, 3, "", "", "M.m.p"⟩ ⟨1, 2, 3, "", "", "M.m.p"⟩
    (by decide) (by decide) (by decide)).1
  rw [h.1, h.2]
  exact ⟨by decide, by decide⟩

/-! ## Decimal rendering toolkit (for the round-trip claim) -/

theorem natDigitsAux_fuel : ∀ f₁ f₂ n, n ≤ f₁ → n ≤ f₂ →
    natDigitsAux f₁ n = natDigitsAux f₂ n := by
  intro f₁
  induction f₁ with
  | zero =>
    intro f₂ n h1 _
    interval_cases n
    cases f₂ <;> simp [natDigitsAux]
  | succ f ih =>
    intro f₂ n h1 h2
    by_cases hn : n < 10
    · cases f₂ <;> simp [natDigitsAux, hn]
    · have h10 : 10 ≤ n := not_lt.mp hn
      cases f₂ with
      | zero => omega
      | succ f₂' =>
        simp only [natDigitsAux, if_neg hn]
        have hdiv : n / 10 < n := Nat.div_lt_self (by omega) (by omega)
        rw [ih f₂' (n / 10) (by omega) (by omega)]

theorem natDigits_lt10 {n : Nat} (h : n < 10) : natDigits n = [digitChar n] := by
  unfold natDigits
  cases n with
  | zero => rfl
  | succ m => simp [natDigitsAux, h]

theorem natDigits_ge10 {n : Nat} (h : 10 ≤ n) :
    natDigits n = natDigits (n / 10) ++ [digitChar (n % 10)] := by
  unfold natDigits
  obtain ⟨m, hm⟩ : ∃ m, n = m + 1 := ⟨n - 1, by omega⟩
  subst hm
  show natDigitsAux (m + 1) (m + 1) = _
  simp only [natDigitsAux, if_neg (show ¬ m + 1 < 10 by omega)]
  rw [natDigitsAux_fuel m ((m + 1) / 10) ((m + 1) / 10) (by omega) (le_refl _)]

theorem digitChar_mem (n : Nat) : digitChar n ∈ digits := by
  unfold digitChar
  split <;> decide

theorem digitChar_toNat {n : Nat} (h : n < 10) : (digitChar n).toNat = 48 + n := by
  interval_cases n <;> decide

theorem natDigits_ne_nil (n : Nat) : natDigits n ≠ [] := by
  by_cases h : n < 10
  · rw [natDigits_lt10 h]
    simp
  · rw [natDigits_ge10 (not_lt.mp h)]
    simp

theorem natDigits_all_digits (n : Nat) : ∀ c ∈ natDigits n, isVersionDigit c = true := by
  induction n using Nat.strong_induction_on with
  | _ n ih =>
    by_cases h : n < 10
    · rw [natDigits_lt10 h]
      intro c hc
      rw [List.mem_singleton] at hc
      subst hc
      have := digitChar_mem n
      simpa [isVersionDigit] using this
    · rw [natDigits_ge10 (not_lt.mp h)]
      intro c hc
      rcases List.mem_append.mp hc with hc1 | hc2
      · exact ih (n / 10) (Nat.div_lt_self (by omega) (by omega)) c hc1
      · rw [List.mem_singleton] at hc2
        subst hc2
        have := digitChar_mem (n % 10)
        simpa [isVersionDigit] using this

theorem digitsVal_append_one (xs : List Char) (c : Char) :
    digitsVal (xs ++ [c]) = 10 * digitsVal xs + (c.toNat - 48) := by
  unfold digitsVal
  rw [List.foldl_append]
  rfl

theorem digitsVal_natDigits (n : Nat) : digitsVal (natDigits n) = n := by
  induction n using Nat.strong_induction_on with
  | _ n ih =>
    by_cases h : n < 10
    · rw [natDigits_lt10 h]
      show 10 * 0 + ((digitChar n).toNat - 48) = n
      rw [digitChar_toNat h]
      omega
    · have h10 : 10 ≤ n := not_lt.mp h
      rw [natDigits_ge10 h10, digitsVal_append_one,
        ih (n / 10) (Nat.div_lt_self (by omega) (by omega)),
        digitChar_toNat (Nat.mod_lt n (by omega))]
      omega

theorem isDigit_of_isVersionDigit {c : Char} (h : isVersionDigit c = true) :
    c.isDigit = true :=
  char_class (l := digits) (p := Char.isDigit) (by decide) h

theorem atoi_natDigits (n : Nat) (hn : n < 2 ^ 63) :
    atoi (natDigits n) = (Int.ofNat n, none) := by
  unfold atoi
  rw [if_neg, if_neg, digitsVal_natDigits]
  · rw [digitsVal_natDigits]
    omega
  · rw [Bool.or_eq_true, not_or]
    constructor
    · simp [List.isEmpty_iff, natDigits_ne_nil n]
    · simp only [Bool.not_eq_true', Bool.not_eq_false]
      rw [List.all_eq_true]
      intro c hc
      exact isDigit_of_isVersionDigit (natDigits_all_digits n c hc)

theorem natDigits_head_ne_zero {n : Nat} (h : 0 < n) :
    ∀ c l, natDigits n = c :: l → c ≠ ('0' : Char) := by
  induction n using Nat.strong_induction_on with
  | _ n ih =>
    by_cases hlt : n < 10
    · rw [natDigits_lt10 hlt]
      intro c l hc
      cases hc
      intro hc0
      have h48 : (('0' : Char)).toNat = 48 := by decide
      have := digitChar_toNat hlt
      rw [hc0, h48] at this
      omega
    · have h10 : 10 ≤ n := not_lt.mp hlt
      rw [natDigits_ge10 h10]
      intro c l hc
      have hne := natDigits_ne_nil (n / 10)
      cases hnd : natDigits (n / 10) with
      | nil => exact absurd hnd hne
      | cons c' l' =>
        rw [hnd] at hc
        simp only [List.cons_append, List.cons.injEq] at hc
        rw [← hc.1]
        exact ih (n / 10) (Nat.div_lt_self (by omega) (by omega)) (by omega) c' l' hnd

theorem validate_natDigits (n : Nat) (name : String) :
    validateMMPFormat (natDigits n) name = none := by
  unfold validateMMPFormat
  rw [if_neg, if_neg]
  · rintro ⟨hlen, hhead⟩
    have hpos : 0 < n := by
      by_contra hn0
      have : n = 0 := by omega
      subst this
      rw [natDigits_lt10 (by omega)] at hlen
      simp [digitChar] at hlen
    cases hnd : natDigits n with
    | nil => exact absurd hnd (natDigits_ne_nil n)
    | cons c l =>
      rw [hnd] at hhead
      exact natDigits_head_ne_zero hpos c l hnd (by simpa using hhead)
  · simp [natDigits_ne_nil n]

/-! ## Scan lemmas: how the loop consumes canonical component strings -/

theorem digit_not_sep {c : Char} (h : isVersionDigit c = true) :
    (c == ('.' : Char) || c == ('-' : Char) || c == ('+' : Char)) = false := by
  have := char_class
    (p := fun c => !(c == ('.' : Char) || c == ('-' : Char) || c == ('+' : Char)))
    (by decide) h
  simpa using this

theorem csize_of_premeta {c : Char} (h : isValidPreMetaChar c = true) : csize c = 1 := by
  have := char_class (l := validPreAndMetaChars)
    (p := fun c => decide (csize c = 1)) (by decide) h
  simpa using this

theorem premeta_ne_bang {c : Char} (h : isValidPreMetaChar c = true) :
    c ≠ ('!' : Char) := by
  have := char_class (l := validPreAndMetaChars)
    (p := fun c => !(c == ('!' : Char))) (by decide) h
  simpa using this

theorem scan_major : ∀ (ds : List Char), (∀ c ∈ ds, isVersionDigit c = true) →
    ∀ (cs : List Char) (i : Nat) (mj mn pt pr mt : List Char) (f1 f2 f3 f4 : Bool),
    parseLoop (ds ++ cs) i ⟨.major, mj, mn, pt, pr, mt, f1, f2, f3, f4⟩ =
      parseLoop cs (i + ds.length) ⟨.major, mj ++ ds, mn, pt, pr, mt, f1, f2, f3, f4⟩ := by
  intro ds
  induction ds with
  | nil =>
    intro _ cs i mj mn pt pr mt f1 f2 f3 f4
    simp
  | cons c ds ih =>
    intro hds cs i mj mn pt pr mt f1 f2 f3 f4
    have hc := hds c (List.mem_cons_self c ds)
    show parseLoop (c :: (ds ++ cs)) i _ = _
    simp only [parseLoop, setFlags]
    rw [if_neg (by simp [digit_not_sep hc])]
    simp only [appendChar]
    rw [if_pos hc]
    simp only [ScanState.push]
    rw [csize_of_digit hc, ih (fun x hx => hds x (List.mem_cons_of_mem c hx)) cs (i + 1)]
    have h1 : mj ++ [c] ++ ds = mj ++ (c :: ds) := by
      rw [List.append_assoc]
      rfl
    have h2 : i + 1 + ds.length = i + (c :: ds).length := by
      rw [List.length_cons]
      omega
    rw [h1, h2]

theorem scan_minor : ∀ (ds : List Char), (∀ c ∈ ds, isVersionDigit c = true) →
    ∀ (cs : List Char) (i : Nat) (mj mn pt pr mt : List Char) (f1 f2 f3 f4 : Bool),
    parseLoop (ds ++ cs) i ⟨.minor, mj, mn, pt, pr, mt, f1, f2, f3, f4⟩ =
      parseLoop cs (i + ds.length)
        ⟨.minor, mj, mn ++ ds, pt, pr, mt, f1 || !ds.isEmpty, f2, f3, f4⟩ := by
  intro ds
  induction ds with
  | nil =>
    intro _ cs i mj mn pt pr mt f1 f2 f3 f4
    simp
  | cons c ds ih =>
    intro hds cs i mj mn pt pr mt f1 f2 f3 f4
    have hc := hds c (List.mem_cons_self c ds)
    show parseLoop (c :: (ds ++ cs)) i _ = _
    simp only [parseLoop, setFlags]
    rw [if_neg (by simp [digit_not_sep hc])]
    simp only [appendChar]
    rw [if_pos hc]
    simp only [ScanState.push]
    rw [csize_of_digit hc, ih (fun x hx => hds x (List.mem_cons_of_mem c hx)) cs (i + 1)]
    have h1 : mn ++ [c] ++ ds = mn ++ (c :: ds) := by
      rw [List.append_assoc]
      rfl
    have h2 : i + 1 + ds.length = i + (c :: ds).length := by
      rw [List.length_cons]
      omega
    rw [h1, h2]
    simp

theorem scan_patch : ∀ (ds : List Char), (∀ c ∈ ds, isVersionDigit c = true) →
    ∀ (cs : List Char) (i : Nat) (mj mn pt pr mt : List Char) (f1 f2 f3 f4 : Bool),
    parseLoop (ds ++ cs) i ⟨.patch, mj, mn, pt, pr, mt, f1, f2, f3, f4⟩ =
      parseLoop cs (i + ds.length)
        ⟨.patch, mj, mn, pt ++ ds, pr, mt, f1, f2 || !ds.isEmpty, f3, f4⟩ := by
  intro ds
  induction ds with
  | nil =>
    intro _ cs i mj mn pt pr mt f1 f2 f3 f4
    simp
  | cons c ds ih =>
    intro hds cs i mj mn pt pr mt f1 f2 f3 f4
    have hc := hds c (List.mem_cons_self c ds)
    show parseLoop (c :: (ds ++ cs)) i _ = _
    simp only [parseLoop, setFlags]
    rw [if_neg (by simp [digit_not_sep hc])]
    simp only [appendChar]
    rw [if_pos hc]
    simp only [ScanState.push]
    rw [csize_of_digit hc, ih (fun x hx => hds x (List.mem_cons_of_mem c hx)) cs (i + 1)]
    have h1 : pt ++ [c] ++ ds = pt ++ (c :: ds) := by
      rw [List.append_assoc]
      rfl
    have h2 : i + 1 + ds.length = i + (c :: ds).length := by
      rw [List.length_cons]
      omega
    rw [h1, h2]
    simp

/-- One scan step in pre mode: every valid pre/meta character other than
`'+'` is appended as literal content (`'.'` falls through `changeMode` as
a default, `'-'` is explicitly literal inside pre/meta). -/
theorem step_pre {c : Char} (hcv : isValidPreMetaChar c = true)
    (hcp : c ≠ ('+' : Char)) (cs : List Char) (i : Nat)
    (mj mn pt pr mt : List Char) (f1 f2 f3 f4 : Bool) :
    parseLoop (c :: cs) i ⟨.pre, mj, mn, pt, pr, mt, f1, f2, f3, f4⟩ =
      parseLoop cs (i + 1) ⟨.pre, mj, mn, pt, pr ++ [c], mt, f1, f2, true, f4⟩ := by
  rw [← csize_of_premeta hcv]
  by_cases hdot : c = ('.' : Char)
  · subst hdot
    rfl
  by_cases hdash : c = ('-' : Char)
  · subst hdash
    rfl
  show parseLoop (c :: cs) i _ = _
  simp only [parseLoop, setFlags]
  rw [if_neg (by simp [beq_eq_false_iff_ne, hdot, hdash, hcp])]
  simp only [appendChar]
  rw [if_pos hcv]
  simp only [ScanState.push]

theorem scan_pre : ∀ (ds : List Char),
    (∀ c ∈ ds, isValidPreMetaChar c = true ∧ c ≠ ('+' : Char)) →
    ∀ (cs : List Char) (i : Nat) (mj mn pt pr mt : List Char) (f1 f2 f3 f4 : Bool),
    parseLoop (ds ++ cs) i ⟨.pre, mj, mn, pt, pr, mt, f1, f2, f3, f4⟩ =
      parseLoop cs (i + ds.length)
        ⟨.pre, mj, mn, pt, pr ++ ds, mt, f1, f2, f3 || !ds.isEmpty, f4⟩ := by
  intro ds
  induction ds with
  | nil =>
    intro _ cs i mj mn pt pr mt f1 f2 f3 f4
    simp
  | cons c ds ih =>
    intro hds cs i mj mn pt pr mt f1 f2 f3 f4
    obtain ⟨hcv, hcp⟩ := hds c (List.mem_cons_self c ds)
    show parseLoop (c :: (ds ++ cs)) i _ = _
    rw [step_pre hcv hcp,
      ih (fun x hx => hds x (List.mem_cons_of_mem c hx)) cs (i + 1)]
    have h1 : pr ++ [c] ++ ds = pr ++ (c :: ds) := by
      rw [List.append_assoc]
      rfl
    have h2 : i + 1 + ds.length = i + (c :: ds).length := by
      rw [List.length_cons]
      omega
    rw [h1, h2]
    simp

/-- One scan step in meta mode (as `step_pre`; `'+'` would be an
`UnexpectedCharacter` error and is excluded). -/
theorem step_meta {c : Char} (hcv : isValidPreMetaChar c = true)
    (hcp : c ≠ ('+' : Char)) (cs : List Char) (i : Nat)
    (mj mn pt pr mt : List Char) (f1 f2 f3 f4 : Bool) :
    parseLoop (c :: cs) i ⟨.meta, mj, mn, pt, pr, mt, f1, f2, f3, f4⟩ =
      parseLoop cs (i + 1) ⟨.meta, mj, mn, pt, pr, mt ++ [c], f1, f2, f3, true⟩ := by
  rw [← csize_of_premeta hcv]
  by_cases hdot : c = ('.' : Char)
  · subst hdot
    rfl
  by_cases hdash : c = ('-' : Char)
  · subst hdash
    rfl
  show parseLoop (c :: cs) i _ = _
  simp only [parseLoop, setFlags]
  rw [if_neg (by simp [beq_eq_false_iff_ne, hdot, hdash, hcp])]
  simp only [appendChar]
  rw [if_pos hcv]
  simp only [ScanState.push]

theorem scan_meta : ∀ (ds : List Char),
    (∀ c ∈ ds, isValidPreMetaChar c = true ∧ c ≠ ('+' : Char)) →
    ∀ (cs : List Char) (i : Nat) (mj mn pt pr mt : List Char) (f1 f2 f3 f4 : Bool),
    parseLoop (ds ++ cs) i ⟨.meta, mj, mn, pt, pr, mt, f1, f2, f3, f4⟩ =
      parseLoop cs (i + ds.length)
        ⟨.meta, mj, mn, pt, pr, mt ++ ds, f1, f2, f3, f4 || !ds.isEmpty⟩ := by
  intro ds
  induction ds with
  | nil =>
    intro _ cs i mj mn pt pr mt f1 f2 f3 f4
    simp
  | cons c ds ih =>
    intro hds cs i mj mn pt pr mt f1 f2 f3 f4
    obtain ⟨hcv, hcp⟩ := hds c (List.mem_cons_self c ds)
    show parseLoop (c :: (ds ++ cs)) i _ = _
    rw [step_meta hcv hcp,
      ih (fun x hx => hds x (List.mem_cons_of_mem c hx)) cs (i + 1)]
    have h1 : mt ++ [c] ++ ds = mt ++ (c :: ds) := by
      rw [List.append_assoc]
      rfl
    have h2 : i + 1 + ds.length = i + (c :: ds).length := by
      rw [List.length_cons]
      omega
    rw [h1, h2]
    simp

/-- The `'.'` that advances the scanner from major mode to minor mode. -/
theorem step_dot_major (cs : List Char) (i : Nat)
    (mj mn pt pr mt : List Char) (f1 f2 f3 f4 : Bool) :
    parseLoop (('.' : Char) :: cs) i ⟨.major, mj, mn, pt, pr, mt, f1, f2, f3, f4⟩ =
      parseLoop cs (i + 1) ⟨.minor, mj, mn, pt, pr, mt, f1, f2, f3, f4⟩ := rfl

/-- The `'.'` that advances the scanner from minor mode to patch mode
(the `parsedMinor` flag is set at the top of this iteration). -/
theorem step_dot_minor (cs : List Char) (i : Nat)
    (mj mn pt pr mt : List Char) (f1 f2 f3 f4 : Bool) :
    parseLoop (('.' : Char) :: cs) i ⟨.minor, mj, mn, pt, pr, mt, f1, f2, f3, f4⟩ =
      parseLoop cs (i + 1) ⟨.patch, mj, mn, pt, pr, mt, true, f2, f3, f4⟩ := rfl

/-- The `'-'` that switches the scanner from patch mode to pre mode
(the `parsedPatch` flag is set at the top of this iteration). -/
theorem step_dash_patch (cs : List Char) (i : Nat)
    (mj mn pt pr mt : List Char) (f1 f2 f3 f4 : Bool) :
    parseLoop (('-' : Char) :: cs) i ⟨.patch, mj, mn, pt, pr, mt, f1, f2, f3, f4⟩ =
      parseLoop cs (i + 1) ⟨.pre, mj, mn, pt, pr, mt, f1, true, f3, f4⟩ := rfl

/-- The `'+'` that switches the scanner from pre mode to meta mode
(the `parsedPre` flag is set at the top of this iteration). -/
theorem step_plus_pre (cs : List Char) (i : Nat)
    (mj mn pt pr mt : List Char) (f1 f2 f3 f4 : Bool) :
    parseLoop (('+' : Char) :: cs) i ⟨.pre, mj, mn, pt, pr, mt, f1, f2, f3, f4⟩ =
      parseLoop cs (i + 1) ⟨.meta, mj, mn, pt, pr, mt, f1, f2, true, f4⟩ := rfl

/-! ## Replacement lemmas (for the formatter) -/

theorem startsWithL_append_self : ∀ (pat l₂ : List Char),
    startsWithL pat (pat ++ l₂) = true := by
  intro pat
  induction pat with
  | nil => intro l₂; rfl
  | cons p ps ih =>
    intro l₂
    show (p == p && startsWithL ps (ps ++ l₂)) = true
    simp [ih]

theorem replaceAux_skip (p : Char) (ps rep : List Char) :
    ∀ (l₁ : List Char), (∀ a ∈ l₁, a ≠ p) → ∀ (l₂ : List Char) (f : Nat),
    replaceAux (p :: ps) rep (l₁.length + f) (l₁ ++ l₂) =
      l₁ ++ replaceAux (p :: ps) rep f l₂ := by
  intro l₁
  induction l₁ with
  | nil =>
    intro _ l₂ f
    simp
  | cons a l₁ ih =>
    intro h l₂ f
    have ha : a ≠ p := h a (List.mem_cons_self a l₁)
    show replaceAux (p :: ps) rep ((a :: l₁).length + f) (a :: (l₁ ++ l₂)) = _
    rw [show (a :: l₁).length + f = (l₁.length + f) + 1 from by
      rw [List.length_cons]; omega]
    simp only [replaceAux]
    rw [if_neg (by simp [startsWithL, beq_eq_false_iff_ne.mpr (Ne.symm ha)])]
    rw [ih (fun x hx => h x (List.mem_cons_of_mem a hx)) l₂ f]
    rfl

theorem replaceAux_no_first (p : Char) (ps rep : List Char) :
    ∀ (s : List Char), (∀ a ∈ s, a ≠ p) → ∀ f, replaceAux (p :: ps) rep f s = s := by
  intro s
  induction s with
  | nil =>
    intro _ f
    cases f <;> rfl
  | cons a s ih =>
    intro h f
    cases f with
    | zero => rfl
    | succ f' =>
      have ha : a ≠ p := h a (List.mem_cons_self a s)
      simp only [replaceAux]
      rw [if_neg (by simp [startsWithL, beq_eq_false_iff_ne.mpr (Ne.symm ha)])]
      rw [ih (fun x hx => h x (List.mem_cons_of_mem a hx)) f']

theorem replaceAux_no_second (p₁ p₂ : Char) (rep : List Char) :
    ∀ (s : List Char), (∀ a ∈ s, a ≠ p₂) → ∀ f, replaceAux [p₁, p₂] rep f s = s := by
  intro s
  induction s with
  | nil =>
    intro _ f
    cases f <;> rfl
  | cons a s ih =>
    intro h f
    cases f with
    | zero => rfl
    | succ f' =>
      simp only [replaceAux]
      rw [if_neg ?hcond, ih (fun x hx => h x (List.mem_cons_of_mem a hx)) f']
      case hcond =>
        cases s with
        | nil => simp [startsWithL]
        | cons b s' =>
          have hb : b ≠ p₂ := h b (List.mem_cons_of_mem a (List.mem_cons_self b s'))
          simp [startsWithL, beq_eq_false_iff_ne.mpr (Ne.symm hb)]

theorem replaceAux_head_match (pat rep l₂ : List Char) (hne : pat ≠ []) (f : Nat) :
    replaceAux pat rep (f + 1) (pat ++ l₂) = rep ++ replaceAux pat rep f l₂ := by
  cases pat with
  | nil => exact absurd rfl hne
  | cons p ps =>
    show replaceAux (p :: ps) rep (f + 1) (p :: (ps ++ l₂)) = _
    simp only [replaceAux]
    rw [if_pos (show startsWithL (p :: ps) (p :: (ps ++ l₂)) = true by
      rw [show p :: (ps ++ l₂) = (p :: ps) ++ l₂ from rfl]
      exact startsWithL_append_self (p :: ps) l₂)]
    congr 1
    rw [show p :: (ps ++ l₂) = (p :: ps) ++ l₂ from rfl, List.drop_left]

theorem goReplace_mk (l pl rl : List Char) (h : String.mk pl ≠ ("" : String)) :
    goReplace (String.mk l) (String.mk pl) (String.mk rl) =
      String.mk (replaceAux pl rl l.length l) := by
  unfold goReplace
  rw [if_neg h]
  rfl

/-- `fmt.Sprint` of a non-negative integer is its decimal numeral. -/
theorem intToString_ofNat (n : Nat) : intToString (Int.ofNat n) = String.mk (natDigits n) := by
  unfold intToString
  have h0 : ¬ Int.ofNat n < 0 := by
    rw [Int.ofNat_eq_natCast]
    omega
  rw [if_neg h0]
  simp

/-- Transporting character-class disequalities to the digits of a numeral. -/
theorem natDigits_ne (n : Nat) (x : Char)
    (hx : digits.all (fun c => !(c == x)) = true) :
    ∀ c ∈ natDigits n, c ≠ x := by
  intro c hc
  have h := char_class (l := digits) (p := fun c => !(c == x)) hx
    (natDigits_all_digits n c hc)
  simpa using h

/-- Transporting character-class disequalities to valid pre/meta characters. -/
theorem premeta_ne {c : Char} (h : isValidPreMetaChar c = true) (x : Char)
    (hx : validPreAndMetaChars.all (fun c => !(c == x)) = true) : c ≠ x := by
  have := char_class (l := validPreAndMetaChars) (p := fun c => !(c == x)) hx h
  simpa using this

/-! ## Parsing the canonical shapes -/

theorem natDigits_isEmpty (n : Nat) : (natDigits n).isEmpty = false := by
  cases hnd : natDigits n with
  | nil => exact absurd hnd (natDigits_ne_nil n)
  | cons c l => rfl

theorem parse_shape1 (ma : Nat) (hma : ma < 2 ^ 63) :
    parse (String.mk (natDigits ma)) =
      (⟨Int.ofNat ma, 0, 0, "", "", ("M")⟩,
       [some (.VersionIncomplete ("minor"))]) := by
  have h := scan_major (natDigits ma) (natDigits_all_digits ma) [] 0
    [] [] [] [] [] false false false false
  rw [List.append_nil] at h
  unfold parse
  rw [show (String.mk (natDigits ma)).toList = natDigits ma from rfl,
    show initState = ⟨.major, [], [], [], [], [], false, false, false, false⟩ from rfl,
    h]
  show finalise ⟨.major, [] ++ natDigits ma, [], [], [], [], false, false, false, false⟩
    [some (.VersionIncomplete ("minor"))] = _
  rw [List.nil_append]
  unfold finalise
  rw [validate_natDigits, atoi_natDigits ma hma]
  rfl

theorem parse_shape2 (ma mi : Nat) (hma : ma < 2 ^ 63) (hmi : mi < 2 ^ 63) :
    parse (String.mk (natDigits ma ++ (('.' : Char) :: natDigits mi))) =
      (⟨Int.ofNat ma, Int.ofNat mi, 0, "", "", ("M.m")⟩,
       [some (.VersionIncomplete ("patch"))]) := by
  have h1 := scan_major (natDigits ma) (natDigits_all_digits ma)
    (('.' : Char) :: natDigits mi) 0 [] [] [] [] [] false false false false
  have h2 := scan_minor (natDigits mi) (natDigits_all_digits mi) [] (0 + (natDigits ma).length + 1)
    ([] ++ natDigits ma) [] [] [] [] false false false false
  rw [List.append_nil] at h2
  unfold parse
  rw [show (String.mk (natDigits ma ++ (('.' : Char) :: natDigits mi))).toList
      = natDigits ma ++ (('.' : Char) :: natDigits mi) from rfl,
    show initState = ⟨.major, [], [], [], [], [], false, false, false, false⟩ from rfl,
    h1, step_dot_major, h2]
  show (if (!(false || !(natDigits mi).isEmpty)) = true then _ else _) = _
  rw [natDigits_isEmpty]
  show finalise ⟨.minor, [] ++ natDigits ma, [] ++ natDigits mi, [], [], [],
    true, false, false, false⟩ [some (.VersionIncomplete ("patch"))] = _
  rw [List.nil_append, List.nil_append]
  unfold finalise
  rw [validate_natDigits, atoi_natDigits ma hma]
  show (if true = true then _ else _) = _
  rw [if_pos rfl]
  rw [validate_natDigits, atoi_natDigits mi hmi]
  rfl

theorem parse_shape3 (ma mi pa : Nat) (hma : ma < 2 ^ 63) (hmi : mi < 2 ^ 63)
    (hpa : pa < 2 ^ 63) :
    parse (String.mk (natDigits ma ++
        (('.' : Char) :: (natDigits mi ++ (('.' : Char) :: natDigits pa))))) =
      (⟨Int.ofNat ma, Int.ofNat mi, Int.ofNat pa, "", "", ("M.m.p")⟩, [none]) := by
  have h1 := scan_major (natDigits ma) (natDigits_all_digits ma)
    (('.' : Char) :: (natDigits mi ++ (('.' : Char) :: natDigits pa))) 0
    [] [] [] [] [] false false false false
  have h2 := scan_minor (natDigits mi) (natDigits_all_digits mi)
    (('.' : Char) :: natDigits pa) (0 + (natDigits ma).length + 1)
    ([] ++ natDigits ma) [] [] [] [] false false false false
  have h3 := scan_patch (natDigits pa) (natDigits_all_digits pa) []
    (0 + (natDigits ma).length + 1 + (natDigits mi).length + 1)
    ([] ++ natDigits ma) ([] ++ natDigits mi) [] [] [] true false false false
  rw [List.append_nil] at h3
  have hloop : parseLoop (natDigits ma ++
        (('.' : Char) :: (natDigits mi ++ (('.' : Char) :: natDigits pa)))) 0 initState =
      (⟨.patch, natDigits ma, natDigits mi, natDigits pa, [], [],
        true, true, false, false⟩, none) := by
    rw [show initState = ⟨.major, [], [], [], [], [], false, false, false, false⟩ from rfl,
      h1, step_dot_major, h2, step_dot_minor, h3, natDigits_isEmpty]
    rfl
  unfold parse
  rw [show (String.mk (natDigits ma ++
        (('.' : Char) :: (natDigits mi ++ (('.' : Char) :: natDigits pa))))).toList
      = natDigits ma ++ (('.' : Char) :: (natDigits mi ++ (('.' : Char) :: natDigits pa)))
      from rfl,
    hloop]
  show finalise ⟨.patch, natDigits ma, natDigits mi, natDigits pa, [], [],
    true, true, false, false⟩ [none] = _
  unfold finalise
  rw [validate_natDigits, atoi_natDigits ma hma]
  show (if true = true then _ else _) = _
  rw [if_pos rfl, validate_natDigits, atoi_natDigits mi hmi]
  unfold finalisePatch
  show (if true = true then _ else _) = _
  rw [if_pos rfl, validate_natDigits, atoi_natDigits pa hpa]
  rfl

theorem parse_shape4 (ma mi pa : Nat) (hma : ma < 2 ^ 63) (hmi : mi < 2 ^ 63)
    (hpa : pa < 2 ^ 63) (pre : List Char) (hp1 : pre ≠ [])
    (hp2 : ∀ c ∈ pre, isValidPreMetaChar c = true ∧ c ≠ ('+' : Char)) :
    parse (String.mk (natDigits ma ++ (('.' : Char) :: (natDigits mi ++
        (('.' : Char) :: (natDigits pa ++ (('-' : Char) :: pre))))))) =
      (⟨Int.ofNat ma, Int.ofNat mi, Int.ofNat pa, String.mk pre, "", ("M.m.p-?")⟩,
       [none]) := by
  have hpe : pre.isEmpty = false := by
    cases pre with
    | nil => exact absurd rfl hp1
    | cons a l => rfl
  have h1 := scan_major (natDigits ma) (natDigits_all_digits ma)
    (('.' : Char) :: (natDigits mi ++ (('.' : Char) :: (natDigits pa ++ (('-' : Char) :: pre)))))
    0 [] [] [] [] [] false false false false
  have h2 := scan_minor (natDigits mi) (natDigits_all_digits mi)
    (('.' : Char) :: (natDigits pa ++ (('-' : Char) :: pre)))
    (0 + (natDigits ma).length + 1)
    ([] ++ natDigits ma) [] [] [] [] false false false false
  have h3 := scan_patch (natDigits pa) (natDigits_all_digits pa)
    (('-' : Char) :: pre)
    (0 + (natDigits ma).length + 1 + (natDigits mi).length + 1)
    ([] ++ natDigits ma) ([] ++ natDigits mi) [] [] [] true false false false
  have h4 := scan_pre pre hp2 []
    (0 + (natDigits ma).length + 1 + (natDigits mi).length + 1 + (natDigits pa).length + 1)
    ([] ++ natDigits ma) ([] ++ natDigits mi) ([] ++ natDigits pa) [] []
    true true false false
  rw [List.append_nil] at h4
  have hloop : parseLoop (natDigits ma ++ (('.' : Char) :: (natDigits mi ++
        (('.' : Char) :: (natDigits pa ++ (('-' : Char) :: pre)))))) 0 initState =
      (⟨.pre, natDigits ma, natDigits mi, natDigits pa, pre, [],
        true, true, true, false⟩, none) := by
    rw [show initState = ⟨.major, [], [], [], [], [], false, false, false, false⟩ from rfl,
      h1, step_dot_major, h2, step_dot_minor, h3, natDigits_isEmpty, step_dash_patch,
      h4, hpe]
    rfl
  unfold parse
  rw [show (String.mk (natDigits ma ++ (('.' : Char) :: (natDigits mi ++
        (('.' : Char) :: (natDigits pa ++ (('-' : Char) :: pre))))))).toList
      = natDigits ma ++ (('.' : Char) :: (natDigits mi ++
        (('.' : Char) :: (natDigits pa ++ (('-' : Char) :: pre))))) from rfl,
    hloop]
  show finalise ⟨.pre, natDigits ma, natDigits mi, natDigits pa, pre, [],
    true, true, true, false⟩ [none] = _
  unfold finalise
  rw [validate_natDigits, atoi_natDigits ma hma]
  show (if true = true then _ else _) = _
  rw [if_pos rfl, validate_natDigits, atoi_natDigits mi hmi]
  unfold finalisePatch
  show (if true = true then _ else _) = _
  rw [if_pos rfl, validate_natDigits, atoi_natDigits pa hpa]
  rfl

theorem parse_shape5 (ma mi pa : Nat) (hma : ma < 2 ^ 63) (hmi : mi < 2 ^ 63)
    (hpa : pa < 2 ^ 63) (pre meta : List Char)
    (hp1 : pre ≠ []) (hp2 : ∀ c ∈ pre, isValidPreMetaChar c = true ∧ c ≠ ('+' : Char))
    (hm1 : meta ≠ []) (hm2 : ∀ c ∈ meta, isValidPreMetaChar c = true ∧ c ≠ ('+' : Char)) :
    parse (String.mk (natDigits ma ++ (('.' : Char) :: (natDigits mi ++
        (('.' : Char) :: (natDigits pa ++ (('-' : Char) ::
          (pre ++ (('+' : Char) :: meta))))))))) =
      (⟨Int.ofNat ma, Int.ofNat mi, Int.ofNat pa, String.mk pre, String.mk meta,
        ("M.m.p-?+?")⟩, [none]) := by
  have hme : meta.isEmpty = false := by
    cases meta with
    | nil => exact absurd rfl hm1
    | cons a l => rfl
  have h1 := scan_major (natDigits ma) (natDigits_all_digits ma)
    (('.' : Char) :: (natDigits mi ++ (('.' : Char) :: (natDigits pa ++
      (('-' : Char) :: (pre ++ (('+' : Char) :: meta)))))))
    0 [] [] [] [] [] false false false false
  have h2 := scan_minor (natDigits mi) (natDigits_all_digits mi)
    (('.' : Char) :: (natDigits pa ++ (('-' : Char) :: (pre ++ (('+' : Char) :: meta)))))
    (0 + (natDigits ma).length + 1)
    ([] ++ natDigits ma) [] [] [] [] false false false false
  have h3 := scan_patch (natDigits pa) (natDigits_all_digits pa)
    (('-' : Char) :: (pre ++ (('+' : Char) :: meta)))
    (0 + (natDigits ma).length + 1 + (natDigits mi).length + 1)
    ([] ++ natDigits ma) ([] ++ natDigits mi) [] [] [] true false false false
  have h4 := scan_pre pre hp2 (('+' : Char) :: meta)
    (0 + (natDigits ma).length + 1 + (natDigits mi).length + 1 + (natDigits pa).length + 1)
    ([] ++ natDigits ma) ([] ++ natDigits mi) ([] ++ natDigits pa) [] []
    true true false false
  have h5 := scan_meta meta hm2 []
    (0 + (natDigits ma).length + 1 + (natDigits mi).length + 1 + (natDigits pa).length + 1
      + pre.length + 1)
    ([] ++ natDigits ma) ([] ++ natDigits mi) ([] ++ natDigits pa) ([] ++ pre) []
    true true true false
  rw [List.append_nil] at h5
  have hloop : parseLoop (natDigits ma ++ (('.' : Char) :: (natDigits mi ++
        (('.' : Char) :: (natDigits pa ++ (('-' : Char) ::
          (pre ++ (('+' : Char) :: meta)))))))) 0 initState =
      (⟨.meta, natDigits ma, natDigits mi, natDigits pa, pre, meta,
        true, true, true, true⟩, none) := by
    rw [show initState = ⟨.major, [], [], [], [], [], false, false, false, false⟩ from rfl,
      h1, step_dot_major, h2, step_dot_minor, h3, natDigits_isEmpty, step_dash_patch,
      h4, step_plus_pre, h5, hme]
    rfl
  unfold parse
  rw [show (String.mk (natDigits ma ++ (('.' : Char) :: (natDigits mi ++
        (('.' : Char) :: (natDigits pa ++ (('-' : Char) ::
          (pre ++ (('+' : Char) :: meta))))))))).toList
      = natDigits ma ++ (('.' : Char) :: (natDigits mi ++
        (('.' : Char) :: (natDigits pa ++ (('-' : Char) ::
          (pre ++ (('+' : Char) :: meta))))))) from rfl,
    hloop]
  show finalise ⟨.meta, natDigits ma, natDigits mi, natDigits pa, pre, meta,
    true, true, true, true⟩ [none] = _
  unfold finalise
  rw [validate_natDigits, atoi_natDigits ma hma]
  show (if true = true then _ else _) = _
  rw [if_pos rfl, validate_natDigits, atoi_natDigits mi hmi]
  unfold finalisePatch
  show (if true = true then _ else _) = _
  rw [if_pos rfl, validate_natDigits, atoi_natDigits pa hpa]
  rfl

/-! ## Formatting the canonical shapes -/

theorem mk_ne_empty_of_ne_nil {l : List Char} (h : l ≠ []) :
    String.mk l ≠ ("" : String) := by
  intro hc
  exact h (congrArg String.data hc)

theorem forall_ne_append {l₁ l₂ : List Char} {x : Char}
    (h1 : ∀ a ∈ l₁, a ≠ x) (h2 : ∀ a ∈ l₂, a ≠ x) : ∀ a ∈ l₁ ++ l₂, a ≠ x := by
  intro a ha
  rcases List.mem_append.mp ha with h | h
  · exact h1 a h
  · exact h2 a h

theorem forall_ne_cons {l : List Char} {c x : Char} (hc : c ≠ x)
    (h : ∀ a ∈ l, a ≠ x) : ∀ a ∈ c :: l, a ≠ x := by
  intro a ha
  rcases List.mem_cons.mp ha with h' | h'
  · rw [h']; exact hc
  · exact h a h'

theorem forall_ne_premeta {l : List Char}
    (h : ∀ c ∈ l, isValidPreMetaChar c = true ∧ c ≠ ('+' : Char)) (x : Char)
    (hx : validPreAndMetaChars.all (fun c => !(c == x)) = true) :
    ∀ a ∈ l, a ≠ x := by
  intro a ha
  exact premeta_ne (h a ha).1 x hx

/-- A replacement whose single-character pattern head occurs nowhere leaves
the string unchanged. -/
theorem goReplace_absent (l : List Char) (p : Char) (ps : List Char) (rep : String)
    (h : ∀ a ∈ l, a ≠ p) :
    goReplace (String.mk l) (String.mk (p :: ps)) rep = String.mk l := by
  cases rep with
  | mk rl =>
    rw [goReplace_mk l (p :: ps) rl (mk_ne_empty_of_ne_nil (by simp)),
      replaceAux_no_first p ps rl l h l.length]

/-- A replacement whose two-character pattern's second character occurs
nowhere leaves the string unchanged. -/
theorem goReplace_absent2 (l : List Char) (p₁ p₂ : Char) (rep : String)
    (h : ∀ a ∈ l, a ≠ p₂) :
    goReplace (String.mk l) (String.mk [p₁, p₂]) rep = String.mk l := by
  cases rep with
  | mk rl =>
    rw [goReplace_mk l [p₁, p₂] rl (mk_ne_empty_of_ne_nil (by simp)),
      replaceAux_no_second p₁ p₂ rl l h l.length]

/-- Splitting a replacement at a prefix free of the pattern's first
character: the replacement threads through to the tail. -/
theorem goReplace_split (l l₁ l₂ : List Char) (hassoc : l = l₁ ++ l₂)
    (p : Char) (ps rl : List Char) (h : ∀ a ∈ l₁, a ≠ p) :
    goReplace (String.mk l) (String.mk (p :: ps)) (String.mk rl) =
      String.mk (l₁ ++ replaceAux (p :: ps) rl l₂.length l₂) := by
  rw [hassoc, goReplace_mk _ _ _ (mk_ne_empty_of_ne_nil (by simp)), List.length_append,
    replaceAux_skip p ps rl l₁ h l₂ l₂.length]

theorem format_shape5 (ma mi pa : Nat) (pre meta : List Char)
    (hp1 : pre ≠ []) (hp2 : ∀ c ∈ pre, isValidPreMetaChar c = true ∧ c ≠ ('+' : Char))
    (hm1 : meta ≠ []) (hm2 : ∀ c ∈ meta, isValidPreMetaChar c = true ∧ c ≠ ('+' : Char)) :
    Version.String ⟨Int.ofNat ma, Int.ofNat mi, Int.ofNat pa, String.mk pre,
      String.mk meta, ("M.m.p-?+?")⟩ =
      String.mk (natDigits ma ++ (('.' : Char) :: (natDigits mi ++ (('.' : Char) ::
        (natDigits pa ++ (('-' : Char) :: (pre ++ (('+' : Char) :: meta)))))))) := by
  have e1 : goReplace ("M.m.p-?+?") (Major) (intToString (Int.ofNat ma)) =
      String.mk (natDigits ma ++ ['.', 'm', '.', 'p', '-', '?', '+', '?']) := by
    rw [intToString_ofNat,
      show ("M.m.p-?+?" : String) =
        String.mk ['M', '.', 'm', '.', 'p', '-', '?', '+', '?'] from rfl,
      show (Major : String) = String.mk ['M'] from rfl,
      goReplace_mk _ _ _ (mk_ne_empty_of_ne_nil (by simp))]
    rfl
  have e2 : goReplace (String.mk (natDigits ma ++ ['.', 'm', '.', 'p', '-', '?', '+', '?']))
      (Minor) (intToString (Int.ofNat mi)) =
      String.mk (natDigits ma ++ (('.' : Char) ::
        (natDigits mi ++ ['.', 'p', '-', '?', '+', '?']))) := by
    rw [intToString_ofNat, show (Minor : String) = String.mk (('m' : Char) :: []) from rfl,
      goReplace_split _ (natDigits ma) ['.', 'm', '.', 'p', '-', '?', '+', '?'] rfl
        ('m') [] (natDigits mi) (natDigits_ne ma ('m') (by decide))]
    rfl
  have e3 : goReplace (String.mk (natDigits ma ++ (('.' : Char) ::
        (natDigits mi ++ ['.', 'p', '-', '?', '+', '?']))))
      (Patch) (intToString (Int.ofNat pa)) =
      String.mk ((natDigits ma ++ (('.' : Char) :: natDigits mi)) ++ (('.' : Char) ::
        (natDigits pa ++ ['-', '?', '+', '?']))) := by
    rw [intToString_ofNat, show (Patch : String) = String.mk (('p' : Char) :: []) from rfl,
      goReplace_split _ (natDigits ma ++ (('.' : Char) :: natDigits mi))
        ['.', 'p', '-', '?', '+', '?'] (by simp) ('p') [] (natDigits pa)
        (forall_ne_append (natDigits_ne ma ('p') (by decide))
          (forall_ne_cons (by decide) (natDigits_ne mi ('p') (by decide))))]
    rfl
  have e4 : goReplace (String.mk ((natDigits ma ++ (('.' : Char) :: natDigits mi)) ++
        (('.' : Char) :: (natDigits pa ++ ['-', '?', '+', '?']))))
      (Semv.Pre) (PreDelim ++ String.mk pre) =
      String.mk (((natDigits ma ++ (('.' : Char) :: natDigits mi)) ++
        (('.' : Char) :: natDigits pa)) ++ ((('-' : Char) :: pre) ++ ['+', '?'])) := by
    rw [show (Semv.Pre : String) = String.mk [('-' : Char), '?'] from rfl,
      show (PreDelim ++ String.mk pre : String) = String.mk (('-' : Char) :: pre) from rfl,
      goReplace_split _ ((natDigits ma ++ (('.' : Char) :: natDigits mi)) ++
          (('.' : Char) :: natDigits pa))
        ['-', '?', '+', '?'] (by simp) ('-') [('?' : Char)] (('-' : Char) :: pre)
        (forall_ne_append
          (forall_ne_append (natDigits_ne ma ('-') (by decide))
            (forall_ne_cons (by decide) (natDigits_ne mi ('-') (by decide))))
          (forall_ne_cons (by decide) (natDigits_ne pa ('-') (by decide))))]
    rfl
  have e5 : goReplace (String.mk (((natDigits ma ++ (('.' : Char) :: natDigits mi)) ++
        (('.' : Char) :: natDigits pa)) ++ ((('-' : Char) :: pre) ++ ['+', '?'])))
      (Semv.Meta) (MetaDelim ++ String.mk meta) =
      String.mk ((((natDigits ma ++ (('.' : Char) :: natDigits mi)) ++
        (('.' : Char) :: natDigits pa)) ++ (('-' : Char) :: pre)) ++
          ((('+' : Char) :: meta) ++ [])) := by
    rw [show (Semv.Meta : String) = String.mk [('+' : Char), '?'] from rfl,
      show (MetaDelim ++ String.mk meta : String) = String.mk (('+' : Char) :: meta) from rfl,
      goReplace_split _ ((((natDigits ma ++ (('.' : Char) :: natDigits mi)) ++
          (('.' : Char) :: natDigits pa)) ++ (('-' : Char) :: pre)))
        ['+', '?'] (by simp) ('+') [('?' : Char)] (('+' : Char) :: meta)
        (forall_ne_append
          (forall_ne_append
            (forall_ne_append (natDigits_ne ma ('+') (by decide))
              (forall_ne_cons (by decide) (natDigits_ne mi ('+') (by decide))))
            (forall_ne_cons (by decide) (natDigits_ne pa ('+') (by decide))))
          (forall_ne_cons (by decide) (forall_ne_premeta hp2 ('+') (by decide))))]
    rfl
  have hnb : ∀ a ∈ (((natDigits ma ++ (('.' : Char) :: natDigits mi)) ++
      (('.' : Char) :: natDigits pa)) ++ (('-' : Char) :: pre)) ++
        ((('+' : Char) :: meta) ++ []), a ≠ ('!' : Char) :=
    forall_ne_append
      (forall_ne_append
        (forall_ne_append
          (forall_ne_append (natDigits_ne ma ('!') (by decide))
            (forall_ne_cons (by decide) (natDigits_ne mi ('!') (by decide))))
          (forall_ne_cons (by decide) (natDigits_ne pa ('!') (by decide))))
        (forall_ne_cons (by decide) (forall_ne_premeta hp2 ('!') (by decide))))
      (forall_ne_cons (by decide)
        (forall_ne_append (forall_ne_premeta hm2 ('!') (by decide)) (by simp)))
  have e6 := goReplace_absent2 ((((natDigits ma ++ (('.' : Char) :: natDigits mi)) ++
      (('.' : Char) :: natDigits pa)) ++ (('-' : Char) :: pre)) ++
        ((('+' : Char) :: meta) ++ [])) ('-') ('!') (String.mk pre) hnb
  have e7 := goReplace_absent2 ((((natDigits ma ++ (('.' : Char) :: natDigits mi)) ++
      (('.' : Char) :: natDigits pa)) ++ (('-' : Char) :: pre)) ++
        ((('+' : Char) :: meta) ++ [])) ('+') ('!') (String.mk meta) hnb
  simp only [Version.String, Version.Format, replaceNums]
  rw [if_neg (show ¬ ("M.m.p-?+?" : String) = ("" : String) by decide)]
  rw [e1, e2, e3,
    if_pos (show ¬ (String.mk pre) = ("" : String) from mk_ne_empty_of_ne_nil hp1),
    e4,
    if_pos (show ¬ (String.mk meta) = ("" : String) from mk_ne_empty_of_ne_nil hm1),
    e5,
    show (PreRaw : String) = String.mk [('-' : Char), ('!' : Char)] from rfl, e6,
    show (MetaRaw : String) = String.mk [('+' : Char), ('!' : Char)] from rfl, e7]
  congr 1
  simp

theorem format_shape1 (ma : Nat) :
    Version.String ⟨Int.ofNat ma, 0, 0, "", "", ("M")⟩ = String.mk (natDigits ma) := by
  have e1 : goReplace ("M") (Major) (intToString (Int.ofNat ma)) =
      String.mk (natDigits ma) := by
    rw [intToString_ofNat, show (Major : String) = String.mk ['M'] from rfl,
      show ("M" : String) = String.mk ['M'] from rfl,
      goReplace_mk _ _ _ (mk_ne_empty_of_ne_nil (by simp))]
    congr 1
    rw [show replaceAux ['M'] (natDigits ma) (['M'].length) ['M'] =
      natDigits ma ++ [] from rfl, List.append_nil]
  have e2 := goReplace_absent (natDigits ma) ('m') [] (intToString (0 : Int))
    (natDigits_ne ma ('m') (by decide))
  have e3 := goReplace_absent (natDigits ma) ('p') [] (intToString (0 : Int))
    (natDigits_ne ma ('p') (by decide))
  have e4 := goReplace_absent (natDigits ma) ('-') [('?' : Char)] ("")
    (natDigits_ne ma ('-') (by decide))
  have e5 := goReplace_absent (natDigits ma) ('+') [('?' : Char)] ("")
    (natDigits_ne ma ('+') (by decide))
  have e6 := goReplace_absent (natDigits ma) ('-') [('!' : Char)] ("")
    (natDigits_ne ma ('-') (by decide))
  have e7 := goReplace_absent (natDigits ma) ('+') [('!' : Char)] ("")
    (natDigits_ne ma ('+') (by decide))
  simp only [Version.String, Version.Format, replaceNums]
  rw [if_neg (show ¬ ("M" : String) = ("" : String) by decide)]
  rw [if_neg (show ¬ (("" : String) ≠ ("" : String)) from fun h => h rfl)]
  rw [if_neg (show ¬ (("" : String) ≠ ("" : String)) from fun h => h rfl)]
  rw [e1]
  rw [show (Minor : String) = String.mk (('m' : Char) :: []) from rfl, e2]
  rw [show (Patch : String) = String.mk (('p' : Char) :: []) from rfl, e3]
  rw [show (Semv.Pre : String) = String.mk (('-' : Char) :: [('?' : Char)]) from rfl, e4]
  rw [show (Semv.Meta : String) = String.mk (('+' : Char) :: [('?' : Char)]) from rfl, e5]
  rw [show (PreRaw : String) = String.mk (('-' : Char) :: [('!' : Char)]) from rfl, e6]
  rw [show (MetaRaw : String) = String.mk (('+' : Char) :: [('!' : Char)]) from rfl, e7]

theorem format_shape2 (ma mi : Nat) :
    Version.String ⟨Int.ofNat ma, Int.ofNat mi, 0, "", "", ("M.m")⟩ =
      String.mk (natDigits ma ++ (('.' : Char) :: natDigits mi)) := by
  have e1 : goReplace ("M.m") (Major) (intToString (Int.ofNat ma)) =
      String.mk (natDigits ma ++ ['.', 'm']) := by
    rw [intToString_ofNat, show ("M.m" : String) = String.mk ['M', '.', 'm'] from rfl,
      show (Major : String) = String.mk ['M'] from rfl,
      goReplace_mk _ _ _ (mk_ne_empty_of_ne_nil (by simp))]
    rfl
  have e2 : goReplace (String.mk (natDigits ma ++ ['.', 'm'])) (Minor)
      (intToString (Int.ofNat mi)) =
      String.mk (natDigits ma ++ (('.' : Char) :: natDigits mi)) := by
    rw [intToString_ofNat, show (Minor : String) = String.mk (('m' : Char) :: []) from rfl,
      goReplace_split _ (natDigits ma) ['.', 'm'] rfl ('m') [] (natDigits mi)
        (natDigits_ne ma ('m') (by decide))]
    congr 1
    rw [show replaceAux ['m'] (natDigits mi) (['.', 'm'].length) ['.', 'm'] =
      ('.' : Char) :: (natDigits mi ++ []) from rfl, List.append_nil]
  have hmm2 : ∀ a ∈ natDigits ma ++ (('.' : Char) :: natDigits mi), a ≠ ('p' : Char) :=
    forall_ne_append (natDigits_ne ma ('p') (by decide))
      (forall_ne_cons (by decide) (natDigits_ne mi ('p') (by decide)))
  have hdash : ∀ a ∈ natDigits ma ++ (('.' : Char) :: natDigits mi), a ≠ ('-' : Char) :=
    forall_ne_append (natDigits_ne ma ('-') (by decide))
      (forall_ne_cons (by decide) (natDigits_ne mi ('-') (by decide)))
  have hplus : ∀ a ∈ natDigits ma ++ (('.' : Char) :: natDigits mi), a ≠ ('+' : Char) :=
    forall_ne_append (natDigits_ne ma ('+') (by decide))
      (forall_ne_cons (by decide) (natDigits_ne mi ('+') (by decide)))
  simp only [Version.String, Version.Format, replaceNums]
  rw [if_neg (show ¬ ("M.m" : String) = ("" : String) by decide)]
  rw [if_neg (show ¬ (("" : String) ≠ ("" : String)) from fun h => h rfl)]
  rw [if_neg (show ¬ (("" : String) ≠ ("" : String)) from fun h => h rfl)]
  rw [e1]
  rw [e2]
  rw [show (Patch : String) = String.mk (('p' : Char) :: []) from rfl]
  rw [goReplace_absent _ ('p') [] _ hmm2]
  rw [show (Semv.Pre : String) = String.mk (('-' : Char) :: [('?' : Char)]) from rfl]
  rw [goReplace_absent _ ('-') [('?' : Char)] _ hdash]
  rw [show (Semv.Meta : String) = String.mk (('+' : Char) :: [('?' : Char)]) from rfl]
  rw [goReplace_absent _ ('+') [('?' : Char)] _ hplus]
  rw [show (PreRaw : String) = String.mk (('-' : Char) :: [('!' : Char)]) from rfl]
  rw [goReplace_absent _ ('-') [('!' : Char)] _ hdash]
  rw [show (MetaRaw : String) = String.mk (('+' : Char) :: [('!' : Char)]) from rfl]
  rw [goReplace_absent _ ('+') [('!' : Char)] _ hplus]

theorem format_shape3 (ma mi pa : Nat) :
    Version.String ⟨Int.ofNat ma, Int.ofNat mi, Int.ofNat pa, "", "", ("M.m.p")⟩ =
      String.mk (natDigits ma ++ (('.' : Char) ::
        (natDigits mi ++ (('.' : Char) :: natDigits pa)))) := by
  have e1 : goReplace ("M.m.p") (Major) (intToString (Int.ofNat ma)) =
      String.mk (natDigits ma ++ ['.', 'm', '.', 'p']) := by
    rw [intToString_ofNat, show ("M.m.p" : String) = String.mk ['M', '.', 'm', '.', 'p'] from rfl,
      show (Major : String) = String.mk ['M'] from rfl,
      goReplace_mk _ _ _ (mk_ne_empty_of_ne_nil (by simp))]
    rfl
  have e2 : goReplace (String.mk (natDigits ma ++ ['.', 'm', '.', 'p'])) (Minor)
      (intToString (Int.ofNat mi)) =
      String.mk (natDigits ma ++ (('.' : Char) :: (natDigits mi ++ ['.', 'p']))) := by
    rw [intToString_ofNat, show (Minor : String) = String.mk (('m' : Char) :: []) from rfl,
      goReplace_split _ (natDigits ma) ['.', 'm', '.', 'p'] rfl ('m') [] (natDigits mi)
        (natDigits_ne ma ('m') (by decide))]
    rfl
  have e3 : goReplace (String.mk (natDigits ma ++ (('.' : Char) ::
        (natDigits mi ++ ['.', 'p'])))) (Patch) (intToString (Int.ofNat pa)) =
      String.mk ((natDigits ma ++ (('.' : Char) :: natDigits mi)) ++
        (('.' : Char) :: (natDigits pa ++ []))) := by
    rw [intToString_ofNat, show (Patch : String) = String.mk (('p' : Char) :: []) from rfl,
      goReplace_split _ (natDigits ma ++ (('.' : Char) :: natDigits mi)) ['.', 'p']
        (by simp) ('p') [] (natDigits pa)
        (forall_ne_append (natDigits_ne ma ('p') (by decide))
          (forall_ne_cons (by decide) (natDigits_ne mi ('p') (by decide))))]
    rfl
  have hdash : ∀ a ∈ (natDigits ma ++ (('.' : Char) :: natDigits mi)) ++
      (('.' : Char) :: (natDigits pa ++ [])), a ≠ ('-' : Char) :=
    forall_ne_append
      (forall_ne_append (natDigits_ne ma ('-') (by decide))
        (forall_ne_cons (by decide) (natDigits_ne mi ('-') (by decide))))
      (forall_ne_cons (by decide)
        (forall_ne_append (natDigits_ne pa ('-') (by decide)) (by simp)))
  have hplus : ∀ a ∈ (natDigits ma ++ (('.' : Char) :: natDigits mi)) ++
      (('.' : Char) :: (natDigits pa ++ [])), a ≠ ('+' : Char) :=
    forall_ne_append
      (forall_ne_append (natDigits_ne ma ('+') (by decide))
        (forall_ne_cons (by decide) (natDigits_ne mi ('+') (by decide))))
      (forall_ne_cons (by decide)
        (forall_ne_append (natDigits_ne pa ('+') (by decide)) (by simp)))
  simp only [Version.String, Version.Format, replaceNums]
  rw [if_neg (show ¬ ("M.m.p" : String) = ("" : String) by decide)]
  rw [if_neg (show ¬ (("" : String) ≠ ("" : String)) from fun h => h rfl)]
  rw [if_neg (show ¬ (("" : String) ≠ ("" : String)) from fun h => h rfl)]
  rw [e1]
  rw [e2]
  rw [e3]
  rw [show (Semv.Pre : String) = String.mk (('-' : Char) :: [('?' : Char)]) from rfl]
  rw [goReplace_absent _ ('-') [('?' : Char)] _ hdash]
  rw [show (Semv.Meta : String) = String.mk (('+' : Char) :: [('?' : Char)]) from rfl]
  rw [goReplace_absent _ ('+') [('?' : Char)] _ hplus]
  rw [show (PreRaw : String) = String.mk (('-' : Char) :: [('!' : Char)]) from rfl]
  rw [goReplace_absent _ ('-') [('!' : Char)] _ hdash]
  rw [show (MetaRaw : String) = String.mk (('+' : Char) :: [('!' : Char)]) from rfl]
  rw [goReplace_absent _ ('+') [('!' : Char)] _ hplus]
  congr 1
  simp

theorem format_shape4 (ma mi pa : Nat) (pre : List Char)
    (hp1 : pre ≠ []) (hp2 : ∀ c ∈ pre, isValidPreMetaChar c = true ∧ c ≠ ('+' : Char)) :
    Version.String ⟨Int.ofNat ma, Int.ofNat mi, Int.ofNat pa, String.mk pre, "",
      ("M.m.p-?")⟩ =
      String.mk (natDigits ma ++ (('.' : Char) :: (natDigits mi ++ (('.' : Char) ::
        (natDigits pa ++ (('-' : Char) :: pre)))))) := by
  have e1 : goReplace ("M.m.p-?") (Major) (intToString (Int.ofNat ma)) =
      String.mk (natDigits ma ++ ['.', 'm', '.', 'p', '-', '?']) := by
    rw [intToString_ofNat,
      show ("M.m.p-?" : String) = String.mk ['M', '.', 'm', '.', 'p', '-', '?'] from rfl,
      show (Major : String) = String.mk ['M'] from rfl,
      goReplace_mk _ _ _ (mk_ne_empty_of_ne_nil (by simp))]
    rfl
  have e2 : goReplace (String.mk (natDigits ma ++ ['.', 'm', '.', 'p', '-', '?'])) (Minor)
      (intToString (Int.ofNat mi)) =
      String.mk (natDigits ma ++ (('.' : Char) ::
        (natDigits mi ++ ['.', 'p', '-', '?']))) := by
    rw [intToString_ofNat, show (Minor : String) = String.mk (('m' : Char) :: []) from rfl,
      goReplace_split _ (natDigits ma) ['.', 'm', '.', 'p', '-', '?'] rfl ('m') []
        (natDigits mi) (natDigits_ne ma ('m') (by decide))]
    rfl
  have e3 : goReplace (String.mk (natDigits ma ++ (('.' : Char) ::
        (natDigits mi ++ ['.', 'p', '-', '?'])))) (Patch) (intToString (Int.ofNat pa)) =
      String.mk ((natDigits ma ++ (('.' : Char) :: natDigits mi)) ++
        (('.' : Char) :: (natDigits pa ++ ['-', '?']))) := by
    rw [intToString_ofNat, show (Patch : String) = String.mk (('p' : Char) :: []) from rfl,
      goReplace_split _ (natDigits ma ++ (('.' : Char) :: natDigits mi)) ['.', 'p', '-', '?']
        (by simp) ('p') [] (natDigits pa)
        (forall_ne_append (natDigits_ne ma ('p') (by decide))
          (forall_ne_cons (by decide) (natDigits_ne mi ('p') (by decide))))]
    rfl
  have e4 : goReplace (String.mk ((natDigits ma ++ (('.' : Char) :: natDigits mi)) ++
        (('.' : Char) :: (natDigits pa ++ ['-', '?'])))) (Semv.Pre)
      (PreDelim ++ String.mk pre) =
      String.mk (((natDigits ma ++ (('.' : Char) :: natDigits mi)) ++
        (('.' : Char) :: natDigits pa)) ++ ((('-' : Char) :: pre) ++ [])) := by
    rw [show (Semv.Pre : String) = String.mk [('-' : Char), '?'] from rfl,
      show (PreDelim ++ String.mk pre : String) = String.mk (('-' : Char) :: pre) from rfl,
      goReplace_split _ ((natDigits ma ++ (('.' : Char) :: natDigits mi)) ++
          (('.' : Char) :: natDigits pa)) ['-', '?'] (by simp) ('-') [('?' : Char)]
        (('-' : Char) :: pre)
        (forall_ne_append
          (forall_ne_append (natDigits_ne ma ('-') (by decide))
            (forall_ne_cons (by decide) (natDigits_ne mi ('-') (by decide))))
          (forall_ne_cons (by decide) (natDigits_ne pa ('-') (by decide))))]
    rfl
  have hplus : ∀ a ∈ ((natDigits ma ++ (('.' : Char) :: natDigits mi)) ++
      (('.' : Char) :: natDigits pa)) ++ ((('-' : Char) :: pre) ++ []),
      a ≠ ('+' : Char) :=
    forall_ne_append
      (forall_ne_append
        (forall_ne_append (natDigits_ne ma ('+') (by decide))
          (forall_ne_cons (by decide) (natDigits_ne mi ('+') (by decide))))
        (forall_ne_cons (by decide) (natDigits_ne pa ('+') (by decide))))
      (forall_ne_append
        (forall_ne_cons (by decide) (forall_ne_premeta hp2 ('+') (by decide)))
        (by simp))
  have hbang : ∀ a ∈ ((natDigits ma ++ (('.' : Char) :: natDigits mi)) ++
      (('.' : Char) :: natDigits pa)) ++ ((('-' : Char) :: pre) ++ []),
      a ≠ ('!' : Char) :=
    forall_ne_append
      (forall_ne_append
        (forall_ne_append (natDigits_ne ma ('!') (by decide))
          (forall_ne_cons (by decide) (natDigits_ne mi ('!') (by decide))))
        (forall_ne_cons (by decide) (natDigits_ne pa ('!') (by decide))))
      (forall_ne_append
        (forall_ne_cons (by decide) (forall_ne_premeta hp2 ('!') (by decide)))
        (by simp))
  simp only [Version.String, Version.Format, replaceNums]
  rw [if_neg (show ¬ ("M.m.p-?" : String) = ("" : String) by decide)]
  rw [if_neg (show ¬ (("" : String) ≠ ("" : String)) from fun h => h rfl)]
  rw [if_pos (show ¬ (String.mk pre) = ("" : String) from mk_ne_empty_of_ne_nil hp1)]
  rw [e1]
  rw [e2]
  rw [e3]
  rw [e4]
  rw [show (Semv.Meta : String) = String.mk (('+' : Char) :: [('?' : Char)]) from rfl]
  rw [goReplace_absent _ ('+') [('?' : Char)] _ hplus]
  rw [show (PreRaw : String) = String.mk [('-' : Char), ('!' : Char)] from rfl]
  rw [goReplace_absent2 _ ('-') ('!') _ hbang]
  rw [show (MetaRaw : String) = String.mk [('+' : Char), ('!' : Char)] from rfl]
  rw [goReplace_absent2 _ ('+') ('!') _ hbang]
  congr 1
  simp


/-- C5: canonical round-trip. For every version string in canonical minimal
form for its shape — `M`, `M.m`, `M.m.p`, `M.m.p-pre`, `M.m.p-pre+meta`,
with each numeric component representable in Go's 64-bit `int` (below
`2^63`; larger components overflow `strconv.Atoi`, whose range error
permissive `Parse` surfaces), rendered without leading zeros, and
`pre`/`meta` non-empty strings of valid pre-release/metadata characters —
permissive `Parse` succeeds (returns no error) and formatting the parsed version with
its recorded shape (`Version.String`, i.e. `Format` at the `DefaultFormat`)
reproduces the input exactly. -/
theorem C5_canonical_round_trip (ma mi pa : Nat)
    (hma : ma < 2 ^ 63) (hmi : mi < 2 ^ 63) (hpa : pa < 2 ^ 63)
    (pre meta : List Char)
    (hp1 : pre ≠ []) (hp2 : ∀ c ∈ pre, isValidPreMetaChar c = true ∧ c ≠ ('+' : Char))
    (hm1 : meta ≠ []) (hm2 : ∀ c ∈ meta, isValidPreMetaChar c = true ∧ c ≠ ('+' : Char)) :
    ((Parse (String.mk (natDigits ma))).2 = none ∧
      (Parse (String.mk (natDigits ma))).1.String = String.mk (natDigits ma)) ∧
    ((Parse (String.mk (natDigits ma ++ (('.' : Char) :: natDigits mi)))).2 = none ∧
      (Parse (String.mk (natDigits ma ++ (('.' : Char) :: natDigits mi)))).1.String =
        String.mk (natDigits ma ++ (('.' : Char) :: natDigits mi))) ∧
    ((Parse (String.mk (natDigits ma ++ (('.' : Char) :: (natDigits mi ++
        (('.' : Char) :: natDigits pa)))))).2 = none ∧
      (Parse (String.mk (natDigits ma ++ (('.' : Char) :: (natDigits mi ++
        (('.' : Char) :: natDigits pa)))))).1.String =
        String.mk (natDigits ma ++ (('.' : Char) :: (natDigits mi ++
          (('.' : Char) :: natDigits pa))))) ∧
    ((Parse (String.mk (natDigits ma ++ (('.' : Char) :: (natDigits mi ++
        (('.' : Char) :: (natDigits pa ++ (('-' : Char) :: pre)))))))).2 = none ∧
      (Parse (String.mk (natDigits ma ++ (('.' : Char) :: (natDigits mi ++
        (('.' : Char) :: (natDigits pa ++ (('-' : Char) :: pre)))))))).1.String =
        String.mk (natDigits ma ++ (('.' : Char) :: (natDigits mi ++
          (('.' : Char) :: (natDigits pa ++ (('-' : Char) :: pre))))))) ∧
    ((Parse (String.mk (natDigits ma ++ (('.' : Char) :: (natDigits mi ++
        (('.' : Char) :: (natDigits pa ++ (('-' : Char) ::
          (pre ++ (('+' : Char) :: meta)))))))))).2 = none ∧
      (Parse (String.mk (natDigits ma ++ (('.' : Char) :: (natDigits mi ++
        (('.' : Char) :: (natDigits pa ++ (('-' : Char) ::
          (pre ++ (('+' : Char) :: meta)))))))))).1.String =
        String.mk (natDigits ma ++ (('.' : Char) :: (natDigits mi ++
          (('.' : Char) :: (natDigits pa ++ (('-' : Char) ::
            (pre ++ (('+' : Char) :: meta))))))))) := by
  have hP1 : Parse (String.mk (natDigits ma)) =
      (⟨Int.ofNat ma, 0, 0, "", "", ("M")⟩, none) := by
    simp only [Parse]
    rw [parse_shape1 ma hma]
    rfl
  have hP2 : Parse (String.mk (natDigits ma ++ (('.' : Char) :: natDigits mi))) =
      (⟨Int.ofNat ma, Int.ofNat mi, 0, "", "", ("M.m")⟩, none) := by
    simp only [Parse]
    rw [parse_shape2 ma mi hma hmi]
    rfl
  have hP3 : Parse (String.mk (natDigits ma ++ (('.' : Char) :: (natDigits mi ++
      (('.' : Char) :: natDigits pa))))) =
      (⟨Int.ofNat ma, Int.ofNat mi, Int.ofNat pa, "", "", ("M.m.p")⟩, none) := by
    simp only [Parse]
    rw [parse_shape3 ma mi pa hma hmi hpa]
    rfl
  have hP4 : Parse (String.mk (natDigits ma ++ (('.' : Char) :: (natDigits mi ++
      (('.' : Char) :: (natDigits pa ++ (('-' : Char) :: pre))))))) =
      (⟨Int.ofNat ma, Int.ofNat mi, Int.ofNat pa, String.mk pre, "", ("M.m.p-?")⟩,
       none) := by
    simp only [Parse]
    rw [parse_shape4 ma mi pa hma hmi hpa pre hp1 hp2]
    rfl
  have hP5 : Parse (String.mk (natDigits ma ++ (('.' : Char) :: (natDigits mi ++
      (('.' : Char) :: (natDigits pa ++ (('-' : Char) ::
        (pre ++ (('+' : Char) :: meta))))))))) =
      (⟨Int.ofNat ma, Int.ofNat mi, Int.ofNat pa, String.mk pre, String.mk meta,
        ("M.m.p-?+?")⟩, none) := by
    simp only [Parse]
    rw [parse_shape5 ma mi pa hma hmi hpa pre meta hp1 hp2 hm1 hm2]
    rfl
  refine ⟨⟨?_, ?_⟩, ⟨?_, ?_⟩, ⟨?_, ?_⟩, ⟨?_, ?_⟩, ⟨?_, ?_⟩⟩
  · rw [hP1]
  · rw [hP1]
    exact format_shape1 ma
  · rw [hP2]
  · rw [hP2]
    exact format_shape2 ma mi
  · rw [hP3]
  · rw [hP3]
    exact format_shape3 ma mi pa
  · rw [hP4]
  · rw [hP4]
    exact format_shape4 ma mi pa pre hp1 hp2
  · rw [hP5]
  · rw [hP5]
    exact format_shape5 ma mi pa pre meta hp1 hp2 hm1 hm2

/-- Witness for C5 at the concrete canonical input family `1`, `1.2`,
`1.2.3`, `1.2.3-beta.1`, `1.2.3-beta.1+meta`: the fifth shape evaluated. -/
theorem C5_witness :
    (Parse ("1.2.3-beta.1+meta")).2 = none ∧
    (Parse ("1.2.3-beta.1+meta")).1.String = ("1.2.3-beta.1+meta") :=
  (C5_canonical_round_trip 1 2 3 (by decide) (by decide) (by decide)
    [('b' : Char), ('e' : Char), ('t' : Char), ('a' : Char), ('.' : Char), ('1' : Char)]
    [('m' : Char), ('e' : Char), ('t' : Char), ('a' : Char)]
    (by decide) (by decide) (by decide) (by decide)).2.2.2.2

end Semv
